import Mathlib

/-!
Verification of an O3DE excerpt: the DocumentPropertyEditor `ReflectionAdapter`
(`ReflectionAdapter.cpp`) and two PBR shader fragments
(`SimplePointLight.azsli`, `EnhancedPBR_SurfaceEval`). Each C++/azsli function
relevant to the claims is shallowly embedded as an executable Lean definition;
engine machinery that lives outside the excerpt (JSON serializer, BRDF helper
functions, the reflection visitor driver) is taken as an explicit parameter of
the embedding. Shader `float`/`real` arithmetic is modelled over `ℚ`.
-/

namespace O3DE

/-! ## SimplePointLight.azsli -/

namespace PointLight

/-- Shader `float3`/`real3`, componentwise over `ℚ`. -/
structure Vec3 where
  x : ℚ
  y : ℚ
  z : ℚ
deriving DecidableEq, Inhabited

def Vec3.add (a b : Vec3) : Vec3 := ⟨a.x + b.x, a.y + b.y, a.z + b.z⟩

def Vec3.sub (a b : Vec3) : Vec3 := ⟨a.x - b.x, a.y - b.y, a.z - b.z⟩

/-- Componentwise scaling `s * v` (HLSL scalar-vector product). -/
def Vec3.scale (s : ℚ) (a : Vec3) : Vec3 := ⟨s * a.x, s * a.y, s * a.z⟩

/-- HLSL `dot`. -/
def dot (a b : Vec3) : ℚ := a.x * b.x + a.y * b.y + a.z * b.z

/-- `ViewSrg::SimplePointLight`. -/
structure SimplePointLight where
  m_position : Vec3
  m_invAttenuationRadiusSquared : ℚ
  m_rgbIntensityCandelas : Vec3
  m_lightingChannelMask : Nat
deriving DecidableEq

/-- The part of `Surface` that `ApplySimplePointLight` reads directly. -/
structure Surface where
  position : Vec3
deriving DecidableEq

structure LightingData where
  lightingChannels : Nat
  diffuseLighting : Vec3
  specularLighting : Vec3
deriving DecidableEq

/-- External shading helpers that live in includes outside this excerpt
    (`GetDiffuseLighting`, `GetSpecularLighting`, HLSL `normalize`, and
    `IsSameLightChannel` from the light-culling include); the code under test
    only calls them, so they are parameters of the embedding. -/
structure ShadingExt where
  getDiffuseLighting : Surface → LightingData → Vec3 → Vec3 → Vec3
  getSpecularLighting : Surface → LightingData → Vec3 → Vec3 → Vec3
  normalize : Vec3 → Vec3
  isSameLightChannel : Nat → Nat → Bool

/-- `ApplySimplePointLight` (SimplePointLight.azsli lines 13-37). -/
def ApplySimplePointLight (ext : ShadingExt) (light : SimplePointLight)
    (surface : Surface) (lightingData : LightingData) : LightingData :=
  let posToLight := Vec3.sub light.m_position surface.position
  let d2 := dot posToLight posToLight
  let falloff := d2 * light.m_invAttenuationRadiusSquared
  -- Only calculate shading if light is in range
  if falloff < 1 then
    -- radiusAttenuation = (1 - falloff^2)^2
    let radiusAttenuation0 := 1 - falloff * falloff
    let radiusAttenuation := radiusAttenuation0 * radiusAttenuation0
    -- d2 = max(0.001 * 0.001, d2)
    let d2c := max ((1 : ℚ)/1000 * ((1 : ℚ)/1000)) d2
    let lightIntensity :=
      Vec3.scale radiusAttenuation (Vec3.scale (1 / d2c) light.m_rgbIntensityCandelas)
    let posToLightDir := ext.normalize posToLight
    -- Diffuse contribution
    let ld1 := { lightingData with
      diffuseLighting :=
        Vec3.add lightingData.diffuseLighting
          (ext.getDiffuseLighting surface lightingData lightIntensity posToLightDir) }
    -- Specular contribution (sees the already-updated diffuse field)
    { ld1 with
      specularLighting :=
        Vec3.add ld1.specularLighting
          (ext.getSpecularLighting surface ld1 lightIntensity posToLightDir) }
  else
    lightingData

/-- `ApplySimplePointLights` (SimplePointLight.azsli lines 39-66), in the
    build configuration without GPU light culling: a loop over every light in
    `ViewSrg::m_simplePointLights`, skipping lights whose channel mask does
    not match. -/
def ApplySimplePointLights (ext : ShadingExt) (lights : List SimplePointLight)
    (surface : Surface) (lightingData : LightingData) : LightingData :=
  lights.foldl
    (fun ld light =>
      if ext.isSameLightChannel ld.lightingChannels light.m_lightingChannelMask then
        ApplySimplePointLight ext light surface ld
      else
        ld)
    lightingData

theorem applySimplePointLight_lightingChannels (ext : ShadingExt)
    (light : SimplePointLight) (surface : Surface) (ld : LightingData) :
    (ApplySimplePointLight ext light surface ld).lightingChannels =
      ld.lightingChannels := by
  unfold ApplySimplePointLight
  by_cases h :
      dot (Vec3.sub light.m_position surface.position)
          (Vec3.sub light.m_position surface.position) *
        light.m_invAttenuationRadiusSquared < 1 <;>
    simp [h]

theorem applySimplePointLights_filter (ext : ShadingExt)
    (lights : List SimplePointLight) (surface : Surface) (ld : LightingData) :
    ApplySimplePointLights ext lights surface ld =
      (lights.filter
          (fun l => ext.isSameLightChannel ld.lightingChannels l.m_lightingChannelMask)).foldl
        (fun acc l => ApplySimplePointLight ext l surface acc) ld := by
  induction lights generalizing ld with
  | nil => rfl
  | cons l ls ih =>
    simp only [ApplySimplePointLights, List.foldl_cons, List.filter_cons]
    by_cases h : ext.isSameLightChannel ld.lightingChannels l.m_lightingChannelMask
    · simp only [h, if_pos, List.foldl_cons]
      have := ih (ApplySimplePointLight ext l surface ld)
      simp only [ApplySimplePointLights] at this
      rw [this, applySimplePointLight_lightingChannels]
    · simp only [h]
      have := ih ld
      simp only [ApplySimplePointLights] at this
      simpa [h] using this

/-- C10: a simple point light with `d2 * invAttenuationRadiusSquared ≥ 1`
    leaves the lighting data unchanged; an in-range light adds exactly one
    diffuse and one specular contribution whose intensity is the light's RGB
    intensity divided by the squared distance (clamped below by `0.001²`) and
    scaled by `(1 - falloff²)²`; and `ApplySimplePointLights` applies the
    per-light function to exactly the lights whose lighting-channel mask
    matches the lighting data's channels. -/
theorem C10_simple_point_light (ext : ShadingExt) (light : SimplePointLight)
    (surface : Surface) (ld : LightingData) (lights : List SimplePointLight) :
    (1 ≤ dot (Vec3.sub light.m_position surface.position)
            (Vec3.sub light.m_position surface.position) *
          light.m_invAttenuationRadiusSquared →
      ApplySimplePointLight ext light surface ld = ld)
    ∧
    (dot (Vec3.sub light.m_position surface.position)
          (Vec3.sub light.m_position surface.position) *
        light.m_invAttenuationRadiusSquared < 1 →
      (let posToLight := Vec3.sub light.m_position surface.position
       let d2 := dot posToLight posToLight
       let falloff := d2 * light.m_invAttenuationRadiusSquared
       let attenuation := (1 - falloff * falloff) * (1 - falloff * falloff)
       let intensity :=
         Vec3.scale attenuation
           (Vec3.scale (1 / max ((1 : ℚ)/1000 * ((1 : ℚ)/1000)) d2)
             light.m_rgbIntensityCandelas)
       let dir := ext.normalize posToLight
       let ld1 := { ld with
         diffuseLighting :=
           Vec3.add ld.diffuseLighting
             (ext.getDiffuseLighting surface ld intensity dir) }
       ApplySimplePointLight ext light surface ld =
         { ld1 with
           specularLighting :=
             Vec3.add ld1.specularLighting
               (ext.getSpecularLighting surface ld1 intensity dir) }))
    ∧
    ApplySimplePointLights ext lights surface ld =
      (lights.filter
          (fun l => ext.isSameLightChannel ld.lightingChannels l.m_lightingChannelMask)).foldl
        (fun acc l => ApplySimplePointLight ext l surface acc) ld := by
  refine ⟨fun h => ?_, fun h => ?_, applySimplePointLights_filter ext lights surface ld⟩
  · unfold ApplySimplePointLight
    rw [if_neg (not_lt.mpr h)]
  · unfold ApplySimplePointLight
    rw [if_pos h]

def pointLightW : SimplePointLight :=
  { m_position := ⟨1, 0, 0⟩
    m_invAttenuationRadiusSquared := 1/100
    m_rgbIntensityCandelas := ⟨1, 2, 3⟩
    m_lightingChannelMask := 1 }

def farPointLightW : SimplePointLight :=
  { m_position := ⟨10, 0, 0⟩
    m_invAttenuationRadiusSquared := 1
    m_rgbIntensityCandelas := ⟨1, 2, 3⟩
    m_lightingChannelMask := 1 }

def shadingExtW : ShadingExt :=
  { getDiffuseLighting := fun _ _ intensity _ => intensity
    getSpecularLighting := fun _ _ intensity _ => intensity
    normalize := fun v => v
    isSameLightChannel := fun a b => a == b }

def lightingDataW : LightingData :=
  { lightingChannels := 1, diffuseLighting := ⟨0, 0, 0⟩, specularLighting := ⟨0, 0, 0⟩ }

/-- Witness for C10 at concrete inputs: one out-of-range light (unchanged
    data) and one in-range light (explicit contributions). -/
theorem C10_simple_point_light_witness :
    ApplySimplePointLight shadingExtW farPointLightW ⟨⟨0, 0, 0⟩⟩ lightingDataW =
        lightingDataW
    ∧ (ApplySimplePointLight shadingExtW pointLightW ⟨⟨0, 0, 0⟩⟩
          lightingDataW).diffuseLighting =
        Vec3.scale ((1 - 1/100 * (1/100)) * (1 - 1/100 * (1/100)))
          (Vec3.scale 1 ⟨1, 2, 3⟩) := by
  constructor
  · exact (C10_simple_point_light shadingExtW farPointLightW ⟨⟨0, 0, 0⟩⟩
      lightingDataW []).1 (by norm_num [dot, Vec3.sub, farPointLightW])
  · rw [(C10_simple_point_light shadingExtW pointLightW ⟨⟨0, 0, 0⟩⟩
      lightingDataW []).2.1 (by norm_num [dot, Vec3.sub, pointLightW])]
    simp only [shadingExtW, pointLightW, lightingDataW]
    norm_num [dot, Vec3.sub, Vec3.scale, Vec3.add]

end PointLight

/-! ## EnhancedPBR surface evaluation (`EvaluateSurface_EnhancedPBR`) -/

namespace SurfaceEval

abbrev R := ℚ

abbrev Vec3 := PointLight.Vec3

/-- Shader `float2`. -/
structure Vec2 where
  x : ℚ
  y : ℚ
deriving DecidableEq, Inhabited

/-- Shader `float4` (used for the transmission tint/thickness vector). -/
structure Vec4 where
  x : ℚ
  y : ℚ
  z : ℚ
  w : ℚ
deriving DecidableEq, Inhabited

def Vec4.rgb (v : Vec4) : Vec3 := ⟨v.x, v.y, v.z⟩

/-- Opaque GPU resources (textures, samplers, 3x3 matrices) are tokens: the
    evaluated code only passes them along to external sampling helpers. -/
abbrev Texture := Nat

abbrev Sampler := Nat

abbrev Mat3 := Nat

/-- The `MaterialSrg` constant-buffer fields read by
    `EvaluateSurface_EnhancedPBR`. -/
structure MaterialSrg where
  m_detail_allMapsUvIndex : Nat
  m_detail_blendMask_uvIndex : Nat
  m_detail_blendMask_texture : Texture
  m_detail_blendFactor : R
  m_sampler : Sampler
  m_normalMapUvIndex : Nat
  m_uvMatrix : Mat3
  m_detailUvMatrix : Mat3
  m_normalMap : Texture
  m_normalFactor : R
  m_flipNormalX : Bool
  m_flipNormalY : Bool
  m_detail_normal_texture : Texture
  m_detail_normal_factor : R
  m_detail_normal_flipX : Bool
  m_detail_normal_flipY : Bool
  m_baseColorMapUvIndex : Nat
  m_baseColorMap : Texture
  m_baseColor : Vec3
  m_baseColorFactor : R
  m_detail_baseColor_texture : Texture
  m_detail_baseColor_factor : R
  m_metallicMapUvIndex : Nat
  m_metallicMap : Texture
  m_metallicFactor : R
  m_specularF0MapUvIndex : Nat
  m_specularF0Map : Texture
  m_specularF0Factor : R
  m_roughnessMapUvIndex : Nat
  m_roughnessMap : Texture
  m_roughnessFactor : R
  m_roughnessLowerBound : R
  m_roughnessUpperBound : R
  m_subsurfaceScatteringInfluenceMapUvIndex : Nat
  m_subsurfaceScatteringInfluenceMap : Texture
  m_subsurfaceScatteringFactor : R
  m_subsurfaceScatteringQuality : R
  m_scatterDistance : Vec3
  m_transmissionThicknessMapUvIndex : Nat
  m_transmissionThicknessMap : Texture
  m_transmissionTintThickness : Vec4
  m_transmissionParams : Vec4
  m_anisotropicAngle : R
  m_anisotropicFactor : R
  m_emissiveMapUvIndex : Nat
  m_emissiveMap : Texture
  m_emissiveIntensity : R
  m_emissiveColor : Vec3
  m_emissiveAffectedByAlpha : R
  m_diffuseOcclusionMapUvIndex : Nat
  m_diffuseOcclusionMap : Texture
  m_diffuseOcclusionFactor : R
  m_specularOcclusionMapUvIndex : Nat
  m_specularOcclusionMap : Texture
  m_specularOcclusionFactor : R
  m_clearCoatInfluenceMapUvIndex : Nat
  m_clearCoatInfluenceMap : Texture
  m_clearCoatFactor : R
  m_clearCoatRoughnessMapUvIndex : Nat
  m_clearCoatRoughnessMap : Texture
  m_clearCoatRoughness : R
  m_clearCoatNormalMapUvIndex : Nat
  m_clearCoatNormalMap : Texture
  m_clearCoatNormalStrength : R
  m_opacityAffectsSpecularFactor : R
deriving Inhabited

/-- Shader option flags (`o_...`) plus the two `#if` compile-time switches. -/
structure ShaderOptions where
  o_detail_blendMask_useTexture : Bool
  o_normal_useTexture : Bool
  o_detail_normal_useTexture : Bool
  o_baseColor_useTexture : Bool
  o_detail_baseColor_useTexture : Bool
  o_baseColorTextureBlendMode : Nat
  o_parallax_highlightClipping : Bool
  o_enableSubsurfaceScattering : Bool
  o_metallic_useTexture : Bool
  o_specularF0_useTexture : Bool
  o_roughness_useTexture : Bool
  o_enableAnisotropy : Bool
  o_emissiveEnabled : Bool
  o_emissive_useTexture : Bool
  o_diffuseOcclusion_useTexture : Bool
  o_specularOcclusion_useTexture : Bool
  o_clearCoat_feature_enabled : Bool
  o_clearCoat_enabled : Bool
  o_clearCoat_factor_useTexture : Bool
  o_clearCoat_roughness_useTexture : Bool
  o_clearCoat_normal_useTexture : Bool
  enableTransmission : Bool
  enableClearCoat : Bool
deriving Inhabited

/-- The `Surface` struct written by the evaluation. Anisotropy state is an
    opaque token produced by `surface.anisotropy.Init`. -/
structure Surface where
  position : Vec3
  vertexNormal : Vec3
  normal : Vec3
  alpha : R
  albedo : Vec3
  specularF0 : Vec3
  metallic : R
  roughnessLinear : R
  roughnessA : R
  subsurfaceScatteringFactor : R
  subsurfaceScatteringQuality : R
  scatterDistance : Vec3
  transmissionTint : Vec3
  transmissionThickness : R
  transmissionParams : Vec4
  transmissionScatterDistance : Vec3
  anisotropy : Nat
  emissiveLighting : Vec3
  diffuseAmbientOcclusion : R
  specularOcclusion : R
  clearCoatFactor : R
  clearCoatRoughness : R
  clearCoatNormal : Vec3
  opacityAffectsSpecularFactor : R
deriving DecidableEq, Inhabited

/-- External helper functions from the StandardPBR / material-function
    includes that are not part of this excerpt. Modelled from the spec: each
    is an unknown function of exactly the arguments the call site passes;
    `setAlbedoAndSpecularF0` returns the albedo and specular-F0 pair the
    `Surface::SetAlbedoAndSpecularF0` method computes from base color,
    specular factor and metallic, and `calculateRoughnessA` is
    `Surface::CalculateRoughnessA` as a function of `roughnessLinear`. -/
structure SurfaceExt where
  getDetailLayerBlendFactor : Texture → Sampler → Vec2 → Bool → R → R
  identity3x3 : Mat3
  getDetailedNormalInputWS :
    Bool → Vec3 → Vec3 → Vec3 → Texture → Sampler → Vec2 → R → Bool → Bool → Mat3 → Bool →
    Vec3 → Vec3 → Texture → Sampler → Vec2 → R → Bool → Bool → Mat3 → Bool → Vec3
  getDetailedBaseColorInput :
    Texture → Sampler → Vec2 → Bool → Vec3 → R → Nat → Texture → Sampler → Vec2 → Bool → R → Vec3
  applyParallaxClippingHighlight : Vec3 → Vec3
  getAlphaAndClip : (Nat → Vec2) → R
  getMetallicInput : Texture → Sampler → Vec2 → R → Bool → R
  getSpecularInput : Texture → Sampler → Vec2 → R → Bool → R
  setAlbedoAndSpecularF0 : Vec3 → R → R → Vec3 × Vec3
  getRoughnessInput : Texture → Sampler → Vec2 → R → R → R → Bool → R
  calculateRoughnessA : R → R
  getSubsurfaceInput : Texture → Sampler → Vec2 → R → R
  getTransmissionInput : Texture → Sampler → Vec2 → Vec4 → Vec4
  getSpecularNormal : Surface → Vec3
  anisotropyInit : Vec3 → Vec3 → Vec3 → R → R → R → Nat
  pi : R
  getEmissiveInput : Texture → Sampler → Vec2 → R → Vec3 → R → R → Bool → Bool → Vec3
  getOcclusionInput : Texture → Sampler → Vec2 → R → Bool → R
  getClearCoatInputs :
    Texture → Vec2 → R → Bool → Texture → Vec2 → R → Bool → Texture → Vec2 → Vec3 → Bool → R →
    Mat3 → Vec3 → Vec3 → Sampler → Bool → R × R × Vec3
  applyClearCoatToSpecularF0 : Vec3 → R → Vec3

/-- The detail-layer blend factor (EnhancedPBR_SurfaceEval lines 1454-1468):
    blend-mask UV selection followed by `GetDetailLayerBlendFactor`. -/
def evalDetailBlendFactor (ext : SurfaceExt) (srg : MaterialSrg) (opt : ShaderOptions)
    (uvs detailUvs : Nat → Vec2) : R :=
  let detailBlendMaskUv :=
    if srg.m_detail_blendMask_uvIndex == srg.m_detail_allMapsUvIndex then
      detailUvs srg.m_detail_blendMask_uvIndex
    else
      uvs srg.m_detail_blendMask_uvIndex
  ext.getDetailLayerBlendFactor srg.m_detail_blendMask_texture srg.m_sampler
    detailBlendMaskUv opt.o_detail_blendMask_useTexture srg.m_detail_blendFactor

/-- The base color (lines 1483-1495): `GetDetailedBaseColorInput` plus the
    optional parallax-clipping highlight. -/
def evalBaseColor (ext : SurfaceExt) (srg : MaterialSrg) (opt : ShaderOptions)
    (uvs detailUvs : Nat → Vec2) (isDisplacementClipped : Bool) : Vec3 :=
  let detailUv := detailUvs srg.m_detail_allMapsUvIndex
  let detailLayerBaseColorFactor :=
    srg.m_detail_baseColor_factor * evalDetailBlendFactor ext srg opt uvs detailUvs
  let baseColorUv := uvs srg.m_baseColorMapUvIndex
  let baseColor :=
    ext.getDetailedBaseColorInput srg.m_baseColorMap srg.m_sampler baseColorUv
      opt.o_baseColor_useTexture srg.m_baseColor srg.m_baseColorFactor
      opt.o_baseColorTextureBlendMode srg.m_detail_baseColor_texture srg.m_sampler
      detailUv opt.o_detail_baseColor_useTexture detailLayerBaseColorFactor
  if opt.o_parallax_highlightClipping && isDisplacementClipped then
    ext.applyParallaxClippingHighlight baseColor
  else
    baseColor

/-- The metallic input (lines 1502-1509): 0 when subsurface scattering is
    enabled, otherwise `GetMetallicInput`. -/
def evalMetallic (ext : SurfaceExt) (srg : MaterialSrg) (opt : ShaderOptions)
    (uvs : Nat → Vec2) : R :=
  if !opt.o_enableSubsurfaceScattering then
    ext.getMetallicInput srg.m_metallicMap srg.m_sampler (uvs srg.m_metallicMapUvIndex)
      srg.m_metallicFactor opt.o_metallic_useTexture
  else
    0

/-- The specular F0 factor (lines 1511-1514). -/
def evalSpecularF0Factor (ext : SurfaceExt) (srg : MaterialSrg) (opt : ShaderOptions)
    (uvs : Nat → Vec2) : R :=
  ext.getSpecularInput srg.m_specularF0Map srg.m_sampler (uvs srg.m_specularF0MapUvIndex)
    srg.m_specularF0Factor opt.o_specularF0_useTexture

/-- `EvaluateSurface_EnhancedPBR` (EnhancedPBR_SurfaceEval.azsli lines
    1441-1589 of the concatenated source), eight-argument overload. `s0` is
    the default-initialized `Surface surface;` local. -/
def EvaluateSurface_EnhancedPBR (ext : SurfaceExt) (srg : MaterialSrg)
    (opt : ShaderOptions) (s0 : Surface) (positionWS : Vec3) (normalWS : Vec3)
    (tangents bitangents : Nat → Vec3) (uvs detailUvs : Nat → Vec2)
    (isFrontFace isDisplacementClipped : Bool) : Surface :=
  let surface := { s0 with position := positionWS }
  -- ------- Detail Layer Setup -------
  let detailUv := detailUvs srg.m_detail_allMapsUvIndex
  let detailLayerBlendFactor := evalDetailBlendFactor ext srg opt uvs detailUvs
  -- ------- Normal -------
  let surface := { surface with vertexNormal := normalWS }
  let normalUv := uvs srg.m_normalMapUvIndex
  let uvMatrix := if srg.m_normalMapUvIndex == 0 then srg.m_uvMatrix else ext.identity3x3
  let detailLayerNormalFactor := srg.m_detail_normal_factor * detailLayerBlendFactor
  let surface := { surface with
    normal := ext.getDetailedNormalInputWS isFrontFace normalWS
      (tangents srg.m_normalMapUvIndex) (bitangents srg.m_normalMapUvIndex)
      srg.m_normalMap srg.m_sampler normalUv srg.m_normalFactor srg.m_flipNormalX
      srg.m_flipNormalY uvMatrix opt.o_normal_useTexture
      (tangents srg.m_detail_allMapsUvIndex) (bitangents srg.m_detail_allMapsUvIndex)
      srg.m_detail_normal_texture srg.m_sampler detailUv detailLayerNormalFactor
      srg.m_detail_normal_flipX srg.m_detail_normal_flipY srg.m_detailUvMatrix
      opt.o_detail_normal_useTexture }
  -- ------- Base Color (incl. parallax clipping highlight) -------
  let baseColor := evalBaseColor ext srg opt uvs detailUvs isDisplacementClipped
  -- ------- Alpha & Clip -------
  let surface := { surface with alpha := ext.getAlphaAndClip uvs }
  -- ------- Metallic -------
  let metallic := evalMetallic ext srg opt uvs
  -- ------- Specular -------
  let specularF0Factor := evalSpecularF0Factor ext srg opt uvs
  let albedoSpec := ext.setAlbedoAndSpecularF0 baseColor specularF0Factor metallic
  let surface := { surface with
    albedo := albedoSpec.1
    specularF0 := albedoSpec.2
    metallic := metallic }
  -- ------- Roughness -------
  let surface := { surface with
    roughnessLinear := ext.getRoughnessInput srg.m_roughnessMap srg.m_sampler
      (uvs srg.m_roughnessMapUvIndex) srg.m_roughnessFactor srg.m_roughnessLowerBound
      srg.m_roughnessUpperBound opt.o_roughness_useTexture }
  let surface := { surface with roughnessA := ext.calculateRoughnessA surface.roughnessLinear }
  -- ------- Subsurface -------
  let surface := { surface with
    subsurfaceScatteringFactor := ext.getSubsurfaceInput
      srg.m_subsurfaceScatteringInfluenceMap srg.m_sampler
      (uvs srg.m_subsurfaceScatteringInfluenceMapUvIndex) srg.m_subsurfaceScatteringFactor
    subsurfaceScatteringQuality := srg.m_subsurfaceScatteringQuality
    scatterDistance := srg.m_scatterDistance }
  -- ------- Transmission (#if ENABLE_TRANSMISSION) -------
  let surface :=
    if opt.enableTransmission then
      let transmissionTintThickness := ext.getTransmissionInput
        srg.m_transmissionThicknessMap srg.m_sampler
        (uvs srg.m_transmissionThicknessMapUvIndex) srg.m_transmissionTintThickness
      { surface with
        transmissionTint := transmissionTintThickness.rgb
        transmissionThickness := transmissionTintThickness.w
        transmissionParams := srg.m_transmissionParams
        transmissionScatterDistance := srg.m_scatterDistance }
    else
      surface
  -- ------- Anisotropy -------
  let surface :=
    if opt.o_enableAnisotropy then
      { surface with
        anisotropy := ext.anisotropyInit (ext.getSpecularNormal surface) (tangents 0)
          (bitangents 0) (srg.m_anisotropicAngle * ext.pi) srg.m_anisotropicFactor
          surface.roughnessA }
    else
      surface
  -- ------- Emissive -------
  let surface := { surface with
    emissiveLighting := ext.getEmissiveInput srg.m_emissiveMap srg.m_sampler
      (uvs srg.m_emissiveMapUvIndex) srg.m_emissiveIntensity srg.m_emissiveColor
      srg.m_emissiveAffectedByAlpha surface.alpha opt.o_emissiveEnabled
      opt.o_emissive_useTexture }
  -- ------- Occlusion -------
  let surface := { surface with
    diffuseAmbientOcclusion := ext.getOcclusionInput srg.m_diffuseOcclusionMap
      srg.m_sampler (uvs srg.m_diffuseOcclusionMapUvIndex) srg.m_diffuseOcclusionFactor
      opt.o_diffuseOcclusion_useTexture
    specularOcclusion := ext.getOcclusionInput srg.m_specularOcclusionMap srg.m_sampler
      (uvs srg.m_specularOcclusionMapUvIndex) srg.m_specularOcclusionFactor
      opt.o_specularOcclusion_useTexture }
  -- ------- Clearcoat (#if ENABLE_CLEAR_COAT) -------
  let surface :=
    if opt.enableClearCoat && opt.o_clearCoat_feature_enabled then
      let surface :=
        if opt.o_clearCoat_enabled then
          let uvMatrixCC :=
            if srg.m_clearCoatNormalMapUvIndex == 0 then srg.m_uvMatrix else ext.identity3x3
          let cc := ext.getClearCoatInputs srg.m_clearCoatInfluenceMap
            (uvs srg.m_clearCoatInfluenceMapUvIndex) srg.m_clearCoatFactor
            opt.o_clearCoat_factor_useTexture srg.m_clearCoatRoughnessMap
            (uvs srg.m_clearCoatRoughnessMapUvIndex) srg.m_clearCoatRoughness
            opt.o_clearCoat_roughness_useTexture srg.m_clearCoatNormalMap
            (uvs srg.m_clearCoatNormalMapUvIndex) normalWS
            opt.o_clearCoat_normal_useTexture srg.m_clearCoatNormalStrength uvMatrixCC
            (tangents srg.m_clearCoatNormalMapUvIndex)
            (bitangents srg.m_clearCoatNormalMapUvIndex) srg.m_sampler isFrontFace
          { surface with
            clearCoatFactor := cc.1
            clearCoatRoughness := cc.2.1
            clearCoatNormal := cc.2.2 }
        else
          surface
      { surface with
        specularF0 := ext.applyClearCoatToSpecularF0 surface.specularF0
          surface.clearCoatFactor }
    else
      surface
  -- ------- Opacity -------
  { surface with opacityAffectsSpecularFactor := srg.m_opacityAffectsSpecularFactor }

structure PixelGeometryData where
  positionWS : Vec3
  vertexNormal : Vec3
  tangents : Nat → Vec3
  bitangents : Nat → Vec3
  uvs : Nat → Vec2
  detailUvs : Nat → Vec2
  isFrontFace : Bool
  isDisplacementClipped : Bool

/-- `VsOutput` is never read by the overload; an opaque token. -/
abbrev VsOutput := Nat

/-- The `(VsOutput, PixelGeometryData)` overload of
    `EvaluateSurface_EnhancedPBR` (lines 1591-1602). -/
def EvaluateSurface_EnhancedPBR_fromGeometry (ext : SurfaceExt) (srg : MaterialSrg)
    (opt : ShaderOptions) (s0 : Surface) (_IN : VsOutput)
    (geoData : PixelGeometryData) : Surface :=
  EvaluateSurface_EnhancedPBR ext srg opt s0 geoData.positionWS geoData.vertexNormal
    geoData.tangents geoData.bitangents geoData.uvs geoData.detailUvs
    geoData.isFrontFace geoData.isDisplacementClipped

/-- C9: the surface returned by `EvaluateSurface_EnhancedPBR` carries the
    given world-space position and vertex normal unchanged; its metallic,
    albedo/specular-F0, roughness, subsurface, emissive and occlusion fields
    are the corresponding material-input computations, with metallic forced
    to 0 when subsurface scattering is enabled; and the
    `(VsOutput, PixelGeometryData)` overload returns exactly the
    eight-argument overload applied to the geometry data's fields. -/
theorem C9_evaluate_surface (ext : SurfaceExt) (srg : MaterialSrg)
    (opt : ShaderOptions) (s0 : Surface) (positionWS normalWS : Vec3)
    (tangents bitangents : Nat → Vec3) (uvs detailUvs : Nat → Vec2)
    (isFrontFace isDisplacementClipped : Bool) (vsOut : VsOutput)
    (geoData : PixelGeometryData) :
    (EvaluateSurface_EnhancedPBR ext srg opt s0 positionWS normalWS tangents
        bitangents uvs detailUvs isFrontFace isDisplacementClipped).position =
      positionWS
    ∧ (EvaluateSurface_EnhancedPBR ext srg opt s0 positionWS normalWS tangents
        bitangents uvs detailUvs isFrontFace isDisplacementClipped).vertexNormal =
      normalWS
    ∧ (EvaluateSurface_EnhancedPBR ext srg opt s0 positionWS normalWS tangents
        bitangents uvs detailUvs isFrontFace isDisplacementClipped).metallic =
      evalMetallic ext srg opt uvs
    ∧ (opt.o_enableSubsurfaceScattering = true →
        (EvaluateSurface_EnhancedPBR ext srg opt s0 positionWS normalWS tangents
            bitangents uvs detailUvs isFrontFace isDisplacementClipped).metallic = 0
        ∧ (EvaluateSurface_EnhancedPBR ext srg opt s0 positionWS normalWS tangents
            bitangents uvs detailUvs isFrontFace isDisplacementClipped).albedo =
          (ext.setAlbedoAndSpecularF0
            (evalBaseColor ext srg opt uvs detailUvs isDisplacementClipped)
            (evalSpecularF0Factor ext srg opt uvs) 0).1)
    ∧ (EvaluateSurface_EnhancedPBR ext srg opt s0 positionWS normalWS tangents
        bitangents uvs detailUvs isFrontFace isDisplacementClipped).albedo =
      (ext.setAlbedoAndSpecularF0
        (evalBaseColor ext srg opt uvs detailUvs isDisplacementClipped)
        (evalSpecularF0Factor ext srg opt uvs)
        (evalMetallic ext srg opt uvs)).1
    ∧ (EvaluateSurface_EnhancedPBR ext srg opt s0 positionWS normalWS tangents
        bitangents uvs detailUvs isFrontFace isDisplacementClipped).roughnessLinear =
      ext.getRoughnessInput srg.m_roughnessMap srg.m_sampler
        (uvs srg.m_roughnessMapUvIndex) srg.m_roughnessFactor srg.m_roughnessLowerBound
        srg.m_roughnessUpperBound opt.o_roughness_useTexture
    ∧ (EvaluateSurface_EnhancedPBR ext srg opt s0 positionWS normalWS tangents
        bitangents uvs detailUvs isFrontFace isDisplacementClipped).subsurfaceScatteringFactor =
      ext.getSubsurfaceInput srg.m_subsurfaceScatteringInfluenceMap srg.m_sampler
        (uvs srg.m_subsurfaceScatteringInfluenceMapUvIndex) srg.m_subsurfaceScatteringFactor
    ∧ (EvaluateSurface_EnhancedPBR ext srg opt s0 positionWS normalWS tangents
        bitangents uvs detailUvs isFrontFace isDisplacementClipped).emissiveLighting =
      ext.getEmissiveInput srg.m_emissiveMap srg.m_sampler (uvs srg.m_emissiveMapUvIndex)
        srg.m_emissiveIntensity srg.m_emissiveColor srg.m_emissiveAffectedByAlpha
        (ext.getAlphaAndClip uvs) opt.o_emissiveEnabled opt.o_emissive_useTexture
    ∧ (EvaluateSurface_EnhancedPBR ext srg opt s0 positionWS normalWS tangents
        bitangents uvs detailUvs isFrontFace isDisplacementClipped).diffuseAmbientOcclusion =
      ext.getOcclusionInput srg.m_diffuseOcclusionMap srg.m_sampler
        (uvs srg.m_diffuseOcclusionMapUvIndex) srg.m_diffuseOcclusionFactor
        opt.o_diffuseOcclusion_useTexture
    ∧ (EvaluateSurface_EnhancedPBR ext srg opt s0 positionWS normalWS tangents
        bitangents uvs detailUvs isFrontFace isDisplacementClipped).specularOcclusion =
      ext.getOcclusionInput srg.m_specularOcclusionMap srg.m_sampler
        (uvs srg.m_specularOcclusionMapUvIndex) srg.m_specularOcclusionFactor
        opt.o_specularOcclusion_useTexture
    ∧ EvaluateSurface_EnhancedPBR_fromGeometry ext srg opt s0 vsOut geoData =
      EvaluateSurface_EnhancedPBR ext srg opt s0 geoData.positionWS geoData.vertexNormal
        geoData.tangents geoData.bitangents geoData.uvs geoData.detailUvs
        geoData.isFrontFace geoData.isDisplacementClipped := by
  refine ⟨?_, ?_, ?_, ?_, ?_, ?_, ?_, ?_, ?_, ?_, rfl⟩ <;>
    unfold EvaluateSurface_EnhancedPBR <;>
      by_cases ht : opt.enableTransmission <;>
        by_cases ha : opt.o_enableAnisotropy <;>
          by_cases hcf : opt.enableClearCoat && opt.o_clearCoat_feature_enabled <;>
            by_cases hcc : opt.o_clearCoat_enabled <;>
              simp [ht, ha, hcf, hcc, evalMetallic] <;>
                (intro hss ; simp [hss, evalMetallic])

def surfaceExtW : SurfaceExt :=
  { getDetailLayerBlendFactor := fun _ _ _ _ f => f
    identity3x3 := 0
    getDetailedNormalInputWS :=
      fun _ n _ _ _ _ _ _ _ _ _ _ _ _ _ _ _ _ _ _ _ _ => n
    getDetailedBaseColorInput := fun _ _ _ _ c _ _ _ _ _ _ _ => c
    applyParallaxClippingHighlight := fun c => c
    getAlphaAndClip := fun _ => 1
    getMetallicInput := fun _ _ _ f _ => f
    getSpecularInput := fun _ _ _ f _ => f
    setAlbedoAndSpecularF0 := fun c f m => (c, ⟨f + m, f, f⟩)
    getRoughnessInput := fun _ _ _ f _ _ _ => f
    calculateRoughnessA := fun r => r * r
    getSubsurfaceInput := fun _ _ _ f => f
    getTransmissionInput := fun _ _ _ t => t
    getSpecularNormal := fun s => s.normal
    anisotropyInit := fun _ _ _ _ _ _ => 0
    pi := 3
    getEmissiveInput := fun _ _ _ _ c _ _ _ _ => c
    getOcclusionInput := fun _ _ _ f _ => f
    getClearCoatInputs := fun _ _ f _ _ _ r _ _ _ n _ _ _ _ _ _ _ => (f, r, n)
    applyClearCoatToSpecularF0 := fun s _ => s }

def shaderOptionsW : ShaderOptions :=
  { (default : ShaderOptions) with o_enableSubsurfaceScattering := true }

/-- Witness for C9: at a concrete material with subsurface scattering
    enabled, the evaluated surface keeps the given position and vertex normal
    and has metallic 0. -/
theorem C9_evaluate_surface_witness :
    (EvaluateSurface_EnhancedPBR surfaceExtW default shaderOptionsW default
        ⟨1, 2, 3⟩ ⟨0, 0, 1⟩ (fun _ => ⟨1, 0, 0⟩) (fun _ => ⟨0, 1, 0⟩)
        (fun _ => ⟨0, 0⟩) (fun _ => ⟨0, 0⟩) true false).position = ⟨1, 2, 3⟩
    ∧ (EvaluateSurface_EnhancedPBR surfaceExtW default shaderOptionsW default
        ⟨1, 2, 3⟩ ⟨0, 0, 1⟩ (fun _ => ⟨1, 0, 0⟩) (fun _ => ⟨0, 1, 0⟩)
        (fun _ => ⟨0, 0⟩) (fun _ => ⟨0, 0⟩) true false).metallic = 0 :=
  ⟨(C9_evaluate_surface surfaceExtW default shaderOptionsW default
      ⟨1, 2, 3⟩ ⟨0, 0, 1⟩ (fun _ => ⟨1, 0, 0⟩) (fun _ => ⟨0, 1, 0⟩)
      (fun _ => ⟨0, 0⟩) (fun _ => ⟨0, 0⟩) true false 0
      ⟨⟨0, 0, 0⟩, ⟨0, 0, 0⟩, fun _ => ⟨0, 0, 0⟩, fun _ => ⟨0, 0, 0⟩,
        fun _ => ⟨0, 0⟩, fun _ => ⟨0, 0⟩, false, false⟩).1,
   ((C9_evaluate_surface surfaceExtW default shaderOptionsW default
      ⟨1, 2, 3⟩ ⟨0, 0, 1⟩ (fun _ => ⟨1, 0, 0⟩) (fun _ => ⟨0, 1, 0⟩)
      (fun _ => ⟨0, 0⟩) (fun _ => ⟨0, 0⟩) true false 0
      ⟨⟨0, 0, 0⟩, ⟨0, 0, 0⟩, fun _ => ⟨0, 0, 0⟩, fun _ => ⟨0, 0, 0⟩,
        fun _ => ⟨0, 0⟩, fun _ => ⟨0, 0⟩, false, false⟩).2.2.2.1 rfl).1⟩

end SurfaceEval

/-! ## Write-back of edited values (`ReflectionAdapter.cpp` onChanged lambdas) -/

namespace WriteBack

/-- A `Dom::Value` arriving from the property editor: either a marshalled
    typed pointer to an editor-side object holding `v` (the case where
    `Dom::Utils::TryMarshalValueToPointer` returns non-null) or a plain
    serialized value. -/
inductive EditorValue where
  | marshalled (v : Nat)
  | plain (v : Nat)
deriving DecidableEq

/-- The engine JSON serializer, external to this excerpt, as an explicit
    parameter: `storeWithRef new ref` is `JsonSerialization::Store` of `new`
    against reference object `ref` (the minimal-diff document),
    `loadJson` is `JsonSerialization::Load` of such a document into the
    instance, `loadDirect` is `Dom::Utils::LoadViaJsonSerialization`, and
    `storeFull` is `Dom::Utils::StoreViaJsonSerialization` with
    `m_keepDefaults = true`. `none` models a result code whose processing is
    `Halted`; a halted call is modelled as leaving the instance untouched. -/
structure Serializer where
  storeWithRef : Nat → Nat → Option Nat
  loadJson : Nat → Option Nat
  loadDirect : Nat → Option Nat
  storeFull : Nat → EditorValue

/-- The `StoreValueIntoPointer` lambda of `VisitObjectBegin`
    (ReflectionAdapter.cpp lines 955-1024). `mem` is the current contents of
    the pointed-to instance (`valuePointer`); the result is the new instance
    contents paired with the `Dom::Value` the callback returns. -/
def StoreValueIntoPointer (ser : Serializer) (mem : Nat) (newValue : EditorValue) :
    Nat × EditorValue :=
  match newValue with
  | .marshalled v =>
    match ser.storeWithRef v mem with
    | none => (mem, newValue)
    | some buffer =>
      match ser.loadJson buffer with
      | none => (mem, newValue)
      | some loaded => (loaded, newValue)
  | .plain v =>
    match ser.loadDirect v with
    | none => (mem, newValue)
    | some loaded => (loaded, newValue)

/-- The onChanged lambda built by `VisitValueWithSerializedPath` (lines
    453-522): the same write-back, except that on success the returned DOM
    value is the instance re-serialized with kept defaults. -/
def serializedPathOnChanged (ser : Serializer) (mem : Nat) (newValue : EditorValue) :
    Nat × EditorValue :=
  match newValue with
  | .marshalled v =>
    match ser.storeWithRef v mem with
    | none => (mem, newValue)
    | some buffer =>
      match ser.loadJson buffer with
      | none => (mem, newValue)
      | some loaded => (loaded, ser.storeFull loaded)
  | .plain v =>
    match ser.loadDirect v with
    | none => (mem, newValue)
    | some loaded => (loaded, ser.storeFull loaded)

/-- The `VisitPrimitive` onChanged lambda (lines 548-564): extract the typed
    value from the DOM value (`Dom::Utils::ValueToType<T>`); on success
    overwrite the instance; in either case return the instance re-serialized
    (`Dom::Utils::ValueFromType(value)`). -/
def primitiveOnChanged (decode : EditorValue → Option Nat) (encode : Nat → EditorValue)
    (mem : Nat) (newValue : EditorValue) : Nat × EditorValue :=
  match decode newValue with
  | some v => (v, encode v)
  | none => (mem, encode mem)

/-- C3: edits are written back by serializing the new value against the
    original as reference and deserializing the resulting document into the
    instance; the serialized-path and primitive callbacks return the
    re-serialized instance, and a marshalled-pointer write leaves the
    instance holding exactly the round-tripped value; if either the JSON
    store or the JSON load halts, the instance is untouched and the incoming
    DOM value is returned unchanged. -/
theorem C3_json_round_trip_write_back (ser : Serializer) (mem v buffer loaded : Nat)
    (decode : EditorValue → Option Nat) (encode : Nat → EditorValue) (w : EditorValue) :
    (ser.storeWithRef v mem = some buffer → ser.loadJson buffer = some loaded →
      StoreValueIntoPointer ser mem (.marshalled v) = (loaded, .marshalled v)
      ∧ serializedPathOnChanged ser mem (.marshalled v) = (loaded, ser.storeFull loaded))
    ∧ (ser.storeWithRef v mem = none →
      StoreValueIntoPointer ser mem (.marshalled v) = (mem, .marshalled v)
      ∧ serializedPathOnChanged ser mem (.marshalled v) = (mem, .marshalled v))
    ∧ (ser.storeWithRef v mem = some buffer → ser.loadJson buffer = none →
      StoreValueIntoPointer ser mem (.marshalled v) = (mem, .marshalled v)
      ∧ serializedPathOnChanged ser mem (.marshalled v) = (mem, .marshalled v))
    ∧ (ser.loadDirect v = none →
      StoreValueIntoPointer ser mem (.plain v) = (mem, .plain v)
      ∧ serializedPathOnChanged ser mem (.plain v) = (mem, .plain v))
    ∧ (ser.loadDirect v = some loaded →
      StoreValueIntoPointer ser mem (.plain v) = (loaded, .plain v)
      ∧ serializedPathOnChanged ser mem (.plain v) = (loaded, ser.storeFull loaded))
    ∧ (decode w = some v →
      primitiveOnChanged decode encode mem w = (v, encode v))
    ∧ (decode w = none →
      primitiveOnChanged decode encode mem w = (mem, encode mem)) := by
  refine ⟨fun h1 h2 => ?_, fun h1 => ?_, fun h1 h2 => ?_, fun h1 => ?_,
    fun h1 => ?_, fun h1 => ?_, fun h1 => ?_⟩ <;>
    simp [StoreValueIntoPointer, serializedPathOnChanged, primitiveOnChanged, h1]
  · simp [h2]
  · simp [h2]

def serializerW : Serializer :=
  { storeWithRef := fun new _ => some new
    loadJson := fun buffer => some buffer
    loadDirect := fun v => some v
    storeFull := fun v => .plain v }

/-- Witness for C3: with a concrete (identity-like) serializer, a marshalled
    edit of `7` over an instance holding `3` leaves the instance holding `7`,
    and a serializer that halts on store leaves the instance at `3` and
    returns the incoming value unchanged. -/
theorem C3_json_round_trip_write_back_witness :
    StoreValueIntoPointer serializerW 3 (.marshalled 7) = (7, .marshalled 7)
    ∧ StoreValueIntoPointer
        { serializerW with storeWithRef := fun _ _ => none } 3 (.marshalled 7) =
      (3, .marshalled 7) :=
  ⟨((C3_json_round_trip_write_back serializerW 3 7 7 7 (fun _ => none)
      (fun n => .plain n) (.plain 0)).1 rfl rfl).1,
   ((C3_json_round_trip_write_back
      { serializerW with storeWithRef := fun _ _ => none } 3 7 7 7 (fun _ => none)
      (fun n => .plain n) (.plain 0)).2.1 rfl).1⟩

end WriteBack

/-! ## Container operations (`BoundContainer`, `ContainerElement`,
    `handleContainerOperation`) -/

namespace Containers

/-- A container element: the value allocated by `IDataContainer::ReserveElement`
    plus the key later set by `SetElementKey` for associative containers. -/
structure Elem where
  value : Nat
  key : Option Nat
deriving DecidableEq

/-- The statically known properties of an `AZ::SerializeContext::IDataContainer`:
    fixed-capacity flag and capacity, whether `GetAssociativeContainerInterface`
    returns non-null, and whether the element `ClassElement` carries a usable
    `KeyType` attribute (`AttributeData<Uuid>`). -/
structure ContainerTraits where
  isFixedCapacity : Bool
  capacity : Nat
  isAssociative : Bool
  hasKeyType : Bool
deriving DecidableEq

/-- `BoundContainer` (ReflectionAdapter.cpp lines 35-191): the container
    interface with its live instance (an id into the instance store) and the
    element reserved through the `IDataContainer` API. -/
structure BoundContainer where
  traits : ContainerTraits
  containerInstance : Nat
  reservedElementInstance : Option Elem
deriving DecidableEq

/-- `ContainerElement` (lines 196-305): an element instance bound to its
    parent container. -/
structure ContainerElement where
  traits : ContainerTraits
  containerInstance : Nat
  elementInstance : Elem
deriving DecidableEq

/-- `ContainerEntry` (lines 307-311). -/
structure ContainerEntry where
  container : Option BoundContainer
  element : Option ContainerElement
deriving DecidableEq

/-- Notifications issued by container operations: `ChangeNotify` invoked on
    the container's editor node (identified here by the live container
    instance), `NotifyResetDocument`, and the `QueryKey` message sent to the
    document-property-editor UI. -/
inductive Event where
  | changeNotify (containerInstance : Nat)
  | resetDocument
  | queryKey (path : List Nat)
deriving DecidableEq

/-- Adapter-side state for container operations: the live container
    instances (instance id → element list, a total map since the bound
    instances are live memory), the `m_containers` prefix tree (path →
    entry), the allocator counter behind `ReserveElement`, and the
    notifications issued so far. -/
structure CState where
  instances : Nat → List Elem
  containers : List (List Nat × ContainerEntry)
  nextAlloc : Nat
  events : List Event

/-- The contents of a live container instance. -/
def instOf (st : CState) (id : Nat) : List Elem :=
  st.instances id

/-- Overwrite the contents of a live container instance. -/
def updInst (f : Nat → List Elem) (id : Nat) (elems : List Elem) :
    Nat → List Elem :=
  fun n => if n = id then elems else f n

/-- Append a `ChangeNotify` on the container's editor node followed by a
    document reset notification. -/
def notifyMutation (st : CState) (containerInstance : Nat) : CState :=
  { st with events := st.events ++ [Event.changeNotify containerInstance, Event.resetDocument] }

/-- `a` is a strict (proper) ancestor path of `b`. -/
def strictAncestor : List Nat → List Nat → Bool
  | [], [] => false
  | [], _ :: _ => true
  | _ :: _, [] => false
  | a :: as, b :: bs => a == b && strictAncestor as bs

/-- `DomPrefixTree::ValueAtPath(path, PrefixTreeMatch::ParentsOnly)`: the
    most specific entry whose path is a strict ancestor of `path`. -/
def findParentsOnly (tree : List (List Nat × ContainerEntry)) (path : List Nat) :
    Option (List Nat × ContainerEntry) :=
  tree.foldl
    (fun best e =>
      if strictAncestor e.1 path then
        match best with
        | none => some e
        | some b => if b.1.length < e.1.length then some e else some b
      else best)
    none

/-- Write an updated entry back at its path in the `m_containers` tree (the
    C++ mutates the entry through a pointer into the tree). -/
def setEntry (tree : List (List Nat × ContainerEntry)) (p : List Nat)
    (entry : ContainerEntry) : List (List Nat × ContainerEntry) :=
  tree.map (fun e => if e.1 == p then (e.1, entry) else e)

/-- The entry stored at an exact path. -/
def entryAt (st : CState) (p : List Nat) : Option ContainerEntry :=
  (st.containers.find? (fun e => e.1 == p)).map (·.2)

/-- `BoundContainer::OnAddElement` (lines 113-153): bail out when a
    fixed-capacity container is full; reserve an element; for an associative
    container with a `KeyType` attribute send `QueryKey` and keep the element
    reserved; otherwise store it and notify. Returns the updated
    `BoundContainer` (its `m_reservedElementInstance` field) and state. -/
def OnAddElement (st : CState) (bc : BoundContainer) (path : List Nat) :
    BoundContainer × CState :=
  let inst := instOf st bc.containerInstance
  if bc.traits.isFixedCapacity && decide (bc.traits.capacity ≤ inst.length) then
    (bc, st)
  else
    let newElem : Elem := ⟨st.nextAlloc, none⟩
    let bc1 := { bc with reservedElementInstance := some newElem }
    let st1 := { st with nextAlloc := st.nextAlloc + 1 }
    if bc.traits.isAssociative && bc.traits.hasKeyType then
      -- key queried; don't store the actual entry until the DPE handles QueryKey
      (bc1, { st1 with events := st1.events ++ [Event.queryKey path] })
    else
      let st2 := { st1 with
        instances := updInst st1.instances bc.containerInstance (inst ++ [newElem]) }
      ({ bc1 with reservedElementInstance := none },
       notifyMutation st2 bc.containerInstance)

/-- `BoundContainer::OnClear` (lines 104-111). -/
def OnClear (st : CState) (bc : BoundContainer) (_path : List Nat) :
    BoundContainer × CState :=
  (bc,
   notifyMutation { st with instances := updInst st.instances bc.containerInstance [] }
     bc.containerInstance)

/-- `BoundContainer::OnAddElementToAssociativeContainer` (lines 155-177):
    set the reserved element's key from the key adapter's instance, store it,
    reset the reservation, and notify. The assert-violating case (no reserved
    element) is modelled as a no-op. -/
def OnAddElementToAssociativeContainer (st : CState) (bc : BoundContainer)
    (keyInstance : Nat) (_containerPath : List Nat) : BoundContainer × CState :=
  match bc.reservedElementInstance with
  | none => (bc, st)
  | some e =>
    let e2 := if bc.traits.isAssociative then { e with key := some keyInstance } else e
    let inst := instOf st bc.containerInstance
    let st1 := { st with instances := updInst st.instances bc.containerInstance (inst ++ [e2]) }
    ({ bc with reservedElementInstance := none },
     notifyMutation st1 bc.containerInstance)

/-- `BoundContainer::RejectAssociativeContainerKey` (lines 179-184): free the
    reserved element (deallocation does not touch the container contents) and
    reset the reservation. The assert-violating case is modelled as a no-op. -/
def RejectAssociativeContainerKey (st : CState) (bc : BoundContainer) :
    BoundContainer × CState :=
  match bc.reservedElementInstance with
  | none => (bc, st)
  | some _ => ({ bc with reservedElementInstance := none }, st)

/-- `ContainerElement::OnRemoveElement` (lines 286-292). -/
def OnRemoveElement (st : CState) (ce : ContainerElement) (_path : List Nat) : CState :=
  let inst := instOf st ce.containerInstance
  notifyMutation
    { st with instances := updInst st.instances ce.containerInstance (inst.erase ce.elementInstance) }
    ce.containerInstance

/-- `IDataContainer::SwapElements` on the modelled element list; indices out
    of range leave the list unchanged. -/
def swapElems (l : List Elem) (i j : Int) : List Elem :=
  if 0 ≤ i ∧ i.toNat < l.length ∧ 0 ≤ j ∧ j.toNat < l.length then
    (l.set i.toNat (l.getD j.toNat ⟨0, none⟩)).set j.toNat (l.getD i.toNat ⟨0, none⟩)
  else
    l

/-- `ContainerElement::OnMoveElement` (lines 294-300): swap `containerIndex`
    with its successor (`MoveDown`, `moveForward = true`) or predecessor
    (`MoveUp`). -/
def OnMoveElement (st : CState) (ce : ContainerElement) (_path : List Nat)
    (containerIndex : Int) (moveForward : Bool) : CState :=
  let inst := instOf st ce.containerInstance
  let swapped :=
    swapElems inst containerIndex
      (if moveForward then containerIndex + 1 else containerIndex - 1)
  notifyMutation
    { st with instances := updInst st.instances ce.containerInstance swapped }
    ce.containerInstance

/-- `Nodes::ContainerAction`. -/
inductive ContainerAction where
  | AddElement
  | RemoveElement
  | Clear
  | MoveUp
  | MoveDown
deriving DecidableEq

/-- A `ContainerActionButton::OnActivate` message: the origin path plus the
    `Action` and `ContainerIndex` attributes extracted from the DOM node at
    that origin (`ExtractFromDomNode`; `none` when the attribute is absent). -/
structure ActionMessage where
  origin : List Nat
  action : Option ContainerAction
  containerIndex : Option Int
deriving DecidableEq

/-- `handleContainerOperation` (ReflectionAdapter.cpp lines 1331-1379). -/
def handleContainerOperation (st : CState) (msg : ActionMessage) : CState :=
  if msg.origin.length = 0 then
    st
  else
    match findParentsOnly st.containers msg.origin with
    | none => st
    | some (epath, entry) =>
      match msg.action with
      | none => st
      | some act =>
        match act with
        | .AddElement =>
          match entry.container with
          | some bc =>
            let r := OnAddElement st bc msg.origin
            { r.2 with containers := setEntry r.2.containers epath { entry with container := some r.1 } }
          | none => st
        | .RemoveElement =>
          match entry.element with
          | some ce => OnRemoveElement st ce msg.origin
          | none => st
        | .Clear =>
          match entry.container with
          | some bc =>
            let r := OnClear st bc msg.origin
            { r.2 with containers := setEntry r.2.containers epath { entry with container := some r.1 } }
          | none => st
        | .MoveUp | .MoveDown =>
          match entry.element with
          | some ce =>
            match msg.containerIndex with
            | some i => OnMoveElement st ce msg.origin i (act = ContainerAction.MoveDown)
            | none => st
          | none => st

/-- `addKeyToContainer` (lines 1381-1388); the null-entry dereference the C++
    would perform when the lookup fails is modelled as a no-op. -/
def addKeyToContainer (st : CState) (keyInstance : Nat) (containerPath : List Nat) : CState :=
  match findParentsOnly st.containers containerPath with
  | none => st
  | some (epath, entry) =>
    match entry.container with
    | some bc =>
      let r := OnAddElementToAssociativeContainer st bc keyInstance containerPath
      { r.2 with containers := setEntry r.2.containers epath { entry with container := some r.1 } }
    | none => st

/-- `rejectKeyToContainer` (lines 1390-1397). -/
def rejectKeyToContainer (st : CState) (containerPath : List Nat) : CState :=
  match findParentsOnly st.containers containerPath with
  | none => st
  | some (epath, entry) =>
    match entry.container with
    | some bc =>
      let r := RejectAssociativeContainerKey st bc
      { r.2 with containers := setEntry r.2.containers epath { entry with container := some r.1 } }
    | none => st

/-- C8: adding to a bound container that reports fixed capacity and whose
    size is at least its capacity returns immediately: the whole state (live
    contents, reservation, notifications) is unchanged. -/
theorem C8_fixed_capacity_add_is_noop (st : CState) (bc : BoundContainer)
    (path : List Nat) (hfixed : bc.traits.isFixedCapacity = true)
    (hfull : bc.traits.capacity ≤ (instOf st bc.containerInstance).length) :
    OnAddElement st bc path = (bc, st) := by
  simp [OnAddElement, hfixed, hfull]

def fullBcW : BoundContainer := ⟨⟨true, 1, false, false⟩, 0, none⟩

def fullStateW : CState :=
  { instances := fun _ => [⟨5, none⟩]
    containers := [([0], ⟨some fullBcW, none⟩)]
    nextAlloc := 10
    events := [] }

/-- Witness for C8: a fixed-capacity container of capacity 1 already holding
    one element. -/
theorem C8_fixed_capacity_add_is_noop_witness :
    OnAddElement fullStateW fullBcW [0, 1] = (fullBcW, fullStateW) :=
  C8_fixed_capacity_add_is_noop fullStateW fullBcW [0, 1] rfl (by decide)

/-- C7: for an associative bound container with a `KeyType` attribute,
    `OnAddElement` reserves an element and sends `QueryKey` without storing
    anything, leaving the reservation set; `OnAddElementToAssociativeContainer`
    (the `AddContainerKey` handler) sets the reserved element's key, stores it
    exactly once and clears the reservation; `RejectAssociativeContainerKey`
    frees the reserved element without touching the container and clears the
    reservation; with no reservation both are no-ops (so a reserved element is
    never stored twice); and `OnClear` never touches the reservation. -/
theorem C7_associative_key_flow (st : CState) (bc : BoundContainer)
    (path : List Nat) (key : Nat) :
    (bc.traits.isAssociative = true → bc.traits.hasKeyType = true →
      ¬(bc.traits.isFixedCapacity = true ∧
          bc.traits.capacity ≤ (instOf st bc.containerInstance).length) →
      OnAddElement st bc path =
        ({ bc with reservedElementInstance := some ⟨st.nextAlloc, none⟩ },
         { st with
             nextAlloc := st.nextAlloc + 1
             events := st.events ++ [Event.queryKey path] }))
    ∧ (∀ e, bc.reservedElementInstance = some e → bc.traits.isAssociative = true →
        OnAddElementToAssociativeContainer st bc key path =
          ({ bc with reservedElementInstance := none },
           notifyMutation
             { st with
                 instances := updInst st.instances bc.containerInstance
                   (instOf st bc.containerInstance ++ [{ e with key := some key }]) }
             bc.containerInstance))
    ∧ (∀ e, bc.reservedElementInstance = some e →
        RejectAssociativeContainerKey st bc =
          ({ bc with reservedElementInstance := none }, st))
    ∧ (bc.reservedElementInstance = none →
        OnAddElementToAssociativeContainer st bc key path = (bc, st)
        ∧ RejectAssociativeContainerKey st bc = (bc, st))
    ∧ (OnClear st bc path).1 = bc := by
  refine ⟨fun h1 h2 h3 => ?_, fun e he h1 => ?_, fun e he => ?_,
    fun he => ⟨?_, ?_⟩, ?_⟩
  · have hcond : (bc.traits.isFixedCapacity &&
        decide (bc.traits.capacity ≤ (instOf st bc.containerInstance).length)) = false := by
      cases hf : bc.traits.isFixedCapacity
      · simp
      · simp only [Bool.true_and, decide_eq_false_iff_not]
        exact fun hc => h3 ⟨hf, hc⟩
    simp [OnAddElement, hcond, h1, h2]
  · simp [OnAddElementToAssociativeContainer, he, h1]
  · simp [RejectAssociativeContainerKey, he]
  · simp [OnAddElementToAssociativeContainer, he]
  · simp [RejectAssociativeContainerKey, he]
  · simp [OnClear]

def assocBcW : BoundContainer := ⟨⟨false, 0, true, true⟩, 0, none⟩

def assocStateW : CState :=
  { instances := fun _ => []
    containers := [([0], ⟨some assocBcW, none⟩)]
    nextAlloc := 5
    events := [] }

/-- Witness for C7: an associative keyed container reserves (sending
    `QueryKey`) without storing; accepting the key stores the reserved
    element with the key set and clears the reservation. -/
theorem C7_associative_key_flow_witness :
    OnAddElement assocStateW assocBcW [0, 1] =
      ({ assocBcW with reservedElementInstance := some ⟨5, none⟩ },
       { assocStateW with
           nextAlloc := 6
           events := assocStateW.events ++ [Event.queryKey [0, 1]] })
    ∧ OnAddElementToAssociativeContainer assocStateW
        { assocBcW with reservedElementInstance := some ⟨5, none⟩ } 9 [0, 1] =
      ({ assocBcW with reservedElementInstance := none },
       notifyMutation
         { assocStateW with
             instances := updInst assocStateW.instances 0 [⟨5, some 9⟩] }
         0)
    ∧ RejectAssociativeContainerKey assocStateW
        { assocBcW with reservedElementInstance := some ⟨5, none⟩ } =
      ({ assocBcW with reservedElementInstance := none }, assocStateW) := by
  refine ⟨?_, ?_, ?_⟩
  · exact (C7_associative_key_flow assocStateW assocBcW [0, 1] 9).1 rfl rfl
      (by simp [assocBcW])
  · exact (C7_associative_key_flow assocStateW
      { assocBcW with reservedElementInstance := some ⟨5, none⟩ } [0, 1] 9).2.1
      ⟨5, none⟩ rfl rfl
  · exact (C7_associative_key_flow assocStateW
      { assocBcW with reservedElementInstance := some ⟨5, none⟩ } [0, 1] 9).2.2.1
      ⟨5, none⟩ rfl

/-- Counterexample to C1 as stated: a message with a non-empty origin that
    resolves (parents-only) to a registered entry binding a container, whose
    node carries `Action = AddElement`, yet the live container stores no new
    element — the container reports fixed capacity and is already full, so
    `OnAddElement` returns immediately. -/
theorem C1_counterexample :
    ([0, 1] : List Nat) ≠ []
    ∧ findParentsOnly fullStateW.containers [0, 1] = some ([0], ⟨some fullBcW, none⟩)
    ∧ ¬((instOf
          (handleContainerOperation fullStateW
            ⟨[0, 1], some ContainerAction.AddElement, none⟩)
          fullBcW.containerInstance).length =
        (instOf fullStateW fullBcW.containerInstance).length + 1) := by
  refine ⟨by decide, by decide, ?_⟩
  decide

/-- C1 (amended): a message with an empty origin path, an unmatched path, or
    no `Action` attribute leaves the state unchanged; when the non-empty
    origin resolves (parents-only) to a registered entry: `AddElement`, when
    the entry binds a container that is neither a full fixed-capacity
    container nor an associative container with a key type, reserves and
    stores a new element; `RemoveElement`, when the entry binds an element,
    removes it from its parent container; `Clear`, when the entry binds a
    container, removes all elements; `MoveUp`/`MoveDown`, when the entry
    binds an element and the node carries a `ContainerIndex`, swap that index
    with index-1/index+1; each completed mutation is followed by a
    `ChangeNotify` on the container's editor node and a document reset
    notification. -/
theorem C1_container_operations (st : CState) (msg : ActionMessage)
    (epath : List Nat) (entry : ContainerEntry) :
    (msg.origin = [] → handleContainerOperation st msg = st)
    ∧ (findParentsOnly st.containers msg.origin = none →
        handleContainerOperation st msg = st)
    ∧ (msg.action = none → handleContainerOperation st msg = st)
    ∧ (msg.origin ≠ [] →
       findParentsOnly st.containers msg.origin = some (epath, entry) →
       (∀ bc, entry.container = some bc →
          msg.action = some ContainerAction.AddElement →
          ¬(bc.traits.isFixedCapacity = true ∧
              bc.traits.capacity ≤ (instOf st bc.containerInstance).length) →
          ¬(bc.traits.isAssociative = true ∧ bc.traits.hasKeyType = true) →
          instOf (handleContainerOperation st msg) bc.containerInstance =
            instOf st bc.containerInstance ++ [⟨st.nextAlloc, none⟩]
          ∧ (handleContainerOperation st msg).events =
              st.events ++ [Event.changeNotify bc.containerInstance, Event.resetDocument])
       ∧ (∀ ce, entry.element = some ce →
          msg.action = some ContainerAction.RemoveElement →
          instOf (handleContainerOperation st msg) ce.containerInstance =
            (instOf st ce.containerInstance).erase ce.elementInstance
          ∧ (handleContainerOperation st msg).events =
              st.events ++ [Event.changeNotify ce.containerInstance, Event.resetDocument])
       ∧ (∀ bc, entry.container = some bc →
          msg.action = some ContainerAction.Clear →
          instOf (handleContainerOperation st msg) bc.containerInstance = []
          ∧ (handleContainerOperation st msg).events =
              st.events ++ [Event.changeNotify bc.containerInstance, Event.resetDocument])
       ∧ (∀ ce i, entry.element = some ce → msg.containerIndex = some i →
          (msg.action = some ContainerAction.MoveUp →
            instOf (handleContainerOperation st msg) ce.containerInstance =
              swapElems (instOf st ce.containerInstance) i (i - 1)
            ∧ (handleContainerOperation st msg).events =
                st.events ++ [Event.changeNotify ce.containerInstance, Event.resetDocument])
          ∧ (msg.action = some ContainerAction.MoveDown →
            instOf (handleContainerOperation st msg) ce.containerInstance =
              swapElems (instOf st ce.containerInstance) i (i + 1)
            ∧ (handleContainerOperation st msg).events =
                st.events ++ [Event.changeNotify ce.containerInstance, Event.resetDocument]))) := by
  refine ⟨fun h => ?_, fun h => ?_, fun h => ?_, fun hne hfind => ?_⟩
  · simp [handleContainerOperation, h]
  · by_cases h0 : msg.origin.length = 0
    · simp [handleContainerOperation, h0]
    · simp [handleContainerOperation, h0, h]
  · by_cases h0 : msg.origin.length = 0
    · simp [handleContainerOperation, h0]
    · cases hf : findParentsOnly st.containers msg.origin with
      | none => simp [handleContainerOperation, h0, hf]
      | some pe => simp [handleContainerOperation, h0, hf, h]
  · have hlen : ¬ msg.origin.length = 0 := by
      simpa [List.length_eq_zero] using hne
    refine ⟨fun bc hbc hact h3 h4 => ?_, fun ce hce hact => ?_,
      fun bc hbc hact => ?_, fun ce i hce hidx => ⟨fun hact => ?_, fun hact => ?_⟩⟩
    · have hcond2 : (bc.traits.isAssociative && bc.traits.hasKeyType) = false := by
        cases ha : bc.traits.isAssociative
        · simp
        · cases hk : bc.traits.hasKeyType
          · simp
          · exact absurd ⟨ha, hk⟩ h4
      simp only [instOf] at h3
      simp [handleContainerOperation, hlen, hfind, hact, hbc, OnAddElement,
        hcond2, notifyMutation, instOf, updInst, h3]
    · simp [handleContainerOperation, hlen, hfind, hact, hce, OnRemoveElement,
        notifyMutation, instOf, updInst]
    · simp [handleContainerOperation, hlen, hfind, hact, hbc, OnClear,
        notifyMutation, instOf, updInst]
    · simp [handleContainerOperation, hlen, hfind, hact, hce, hidx, OnMoveElement,
        notifyMutation, instOf, updInst]
    · simp [handleContainerOperation, hlen, hfind, hact, hce, hidx, OnMoveElement,
        notifyMutation, instOf, updInst]

def addBcW : BoundContainer := ⟨⟨false, 0, false, false⟩, 0, none⟩

def addStateW : CState :=
  { instances := fun _ => []
    containers := [([0], ⟨some addBcW, none⟩)]
    nextAlloc := 3
    events := [] }

/-- Witness for the amended C1: a matched `AddElement` on an empty
    non-fixed-capacity container stores the freshly reserved element and
    issues `ChangeNotify` plus a document reset. -/
theorem C1_container_operations_witness :
    instOf (handleContainerOperation addStateW
        ⟨[0, 1], some ContainerAction.AddElement, none⟩) 0 = [⟨3, none⟩]
    ∧ (handleContainerOperation addStateW
        ⟨[0, 1], some ContainerAction.AddElement, none⟩).events =
      [Event.changeNotify 0, Event.resetDocument] := by
  have h := ((C1_container_operations addStateW
      ⟨[0, 1], some ContainerAction.AddElement, none⟩ [0]
      ⟨some addBcW, none⟩).2.2.2 (by decide) (by decide)).1 addBcW rfl rfl
      (by decide) (by decide)
  exact ⟨h.1, h.2⟩

end Containers

/-! ## DOM generation and the OnChanged protocol (`GenerateContents`,
    `VisitValue`, `handlePropertyEditorChanged`) -/

namespace Gen

/-- A `Dom::Value`: a node (name, attribute members, child array) or a leaf
    value. -/
inductive DomVal where
  | node (nodeName : String) (attrs : List (String × DomVal)) (children : List DomVal)
  | boolV (b : Bool)
  | intV (n : Int)
  | strV (s : String)
  | nullV

/-- Is this value `Dom::Value()` (null)? -/
def DomVal.isNullV : DomVal → Bool
  | .nullV => true
  | _ => false

/-- `IsBool() && GetBool()`. -/
def DomVal.asBoolTrue : DomVal → Bool
  | .boolV b => b
  | _ => false

/-- A `Dom::Path` entry: an array index or a member name. -/
inductive PathEl where
  | idx (i : Nat)
  | field (s : String)
deriving DecidableEq

abbrev Path := List PathEl

/-- Primitive instance memory: address → current value (the live object the
    reflection visitor walks). -/
abbrev Mem := Nat → Int

/-- An onChanged callback: reads the editor-supplied `Dom::Value`, possibly
    writes instance memory, and returns the resulting `Dom::Value`. -/
abbrev Cb := Mem → DomVal → Mem × DomVal

/-- One open node in the `AdapterBuilder`. -/
structure Frame where
  nodeName : String
  attrs : List (String × DomVal)
  children : List DomVal

/-- `AdapterBuilder::BeginNode`. -/
def beginNode (b : List Frame) (n : String) : List Frame :=
  ⟨n, [], []⟩ :: b

/-- `AdapterBuilder::Attribute` on the node currently being built. -/
def setAttr (b : List Frame) (k : String) (v : DomVal) : List Frame :=
  match b with
  | [] => []
  | f :: fs => { f with attrs := f.attrs ++ [(k, v)] } :: fs

/-- `AdapterBuilder::EndNode`: fold the finished node into its parent. -/
def endNode (b : List Frame) : List Frame :=
  match b with
  | f :: g :: fs =>
    { g with children := g.children ++ [DomVal.node f.nodeName f.attrs f.children] } :: fs
  | other => other

/-- `AdapterBuilder::GetCurrentPath`: the path of the node currently being
    built (each open node's index in its parent is the parent's current
    child count). -/
def currentPath (b : List Frame) : Path :=
  (b.reverse.dropLast).map (fun f => PathEl.idx f.children.length)

/-- The finished root node (`EndAdapter` + `FinishAndTakeResult`). -/
def finishRoot (b : List Frame) : DomVal :=
  match b with
  | [f] => DomVal.node f.nodeName f.attrs f.children
  | _ => DomVal.nullV

/-- An attribute marking a registered message handler
    (`AdapterBuilder::AddMessageHandler`). -/
def handlerMarker : DomVal := DomVal.strV "messageHandler"

/-- `IAttributes::Find` over the modelled (default-group) attribute list. -/
def lookupAttr (attrs : List (String × DomVal)) (n : String) : Option DomVal :=
  (attrs.find? (fun kv => kv.1 = n)).map (·.2)

/-- `ReflectionAdapterReflectionImpl::GetPropertyEditor` (lines 322-336):
    the `Handler` attribute when it is a string, else `ComboBox` for enum
    types, else empty. -/
def GetPropertyEditor (attrs : List (String × DomVal)) : String :=
  match lookupAttr attrs "Handler" with
  | some (DomVal.strV s) => s
  | _ =>
    match lookupAttr attrs "EnumType" with
    | some v => if v.isNullV then "" else "ComboBox"
    | none => ""

/-- The label text when the `Label` attribute is present and is a string
    (`ExtractAndCreateLabel`, lines 351-359). -/
def labelOf (attrs : List (String × DomVal)) : Option String :=
  match lookupAttr attrs "Label" with
  | some (DomVal.strV s) => some s
  | _ => none

/-- The attributes `ForwardAttributes` (lines 361-392) skips: the ignored
    descriptor attributes plus `Nodes::Row::RowAttributes` (whose names are a
    parameter of the embedding, as `PropertyEditorNodes.h` is outside the
    excerpt). -/
def ignoredAttributes : List String := ["Label", "Handler", "Container", "Visibility"]

/-- The attributes forwarded onto the property editor node. -/
def forwardedAttrs (rowAttrNames : List String) (attrs : List (String × DomVal)) :
    List (String × DomVal) :=
  attrs.filter (fun kv => ¬(kv.1 ∈ ignoredAttributes ∨ kv.1 ∈ rowAttrNames))

/-- Adapter-side generation state: the builder stack, the
    `m_onChangedCallbacks` prefix tree and the `m_containers` registrations
    made while building (keyed by builder path; the registered payload is the
    `ParentContainer` attribute value). -/
structure GenState where
  builder : List Frame
  callbacks : List (Path × Cb)
  containerElems : List (Path × DomVal)

/-- `DomPrefixTree::SetValue`: overwrite an existing entry at the exact path
    or add a new one. -/
def setCb (l : List (Path × Cb)) (p : Path) (cb : Cb) : List (Path × Cb) :=
  if l.any (fun e => e.1 = p) then
    l.map (fun e => if e.1 = p then (p, cb) else e)
  else
    l ++ [(p, cb)]

/-- `DomPrefixTree::SetValue` for the container registrations (also covering
    the `ValueAtPath(..., ExactPath)` merge in `CheckContainerElement`). -/
def setContainerElem (l : List (Path × DomVal)) (p : Path) (v : DomVal) :
    List (Path × DomVal) :=
  if l.any (fun e => e.1 = p) then
    l.map (fun e => if e.1 = p then (p, v) else e)
  else
    l ++ [(p, v)]

/-- Decoded `IsFixedSize` of the parent-container descriptor carried by the
    `ParentContainer` attribute value. -/
def pcIsFixedSize (v : DomVal) : Bool :=
  match v with
  | DomVal.node _ attrs _ =>
    match lookupAttr attrs "IsFixedSize" with
    | some w => w.asBoolTrue
    | none => false
  | _ => false

/-- Decoded `IsSequenceContainer` of the parent-container descriptor. -/
def pcIsSequence (v : DomVal) : Bool :=
  match v with
  | DomVal.node _ attrs _ =>
    match lookupAttr attrs "IsSequence" with
    | some w => w.asBoolTrue
    | none => false
  | _ => false

/-- Decoded `Size(parentContainerInstance)`; the live size is carried in the
    descriptor since the container implementation is engine-owned. -/
def pcSize (v : DomVal) : Int :=
  match v with
  | DomVal.node _ attrs _ =>
    match lookupAttr attrs "Size" with
    | some (DomVal.intV n) => n
    | _ => 0
  | _ => 0

/-- The `ContainerIndex` attribute (asserted present for sequence-container
    children; the assert-violating absent case is modelled as 0). -/
def containerIndexOf (attrs : List (String × DomVal)) : Int :=
  match lookupAttr attrs "ContainerIndex" with
  | some (DomVal.intV i) => i
  | _ => 0

/-- A marshalled pointer attribute value is usable when it is a non-null
    valid pointer object (modelled: an int address). -/
def validPointerAttr (v : DomVal) : Bool :=
  match v with
  | DomVal.intV _ => true
  | DomVal.node _ _ _ => true
  | _ => false

/-- `CreateContainerButton` (lines 627-655). -/
def CreateContainerButton (b : List Frame) (action : String) (disabled : Bool)
    (ancestorDisabled : Bool) (containerIndex : Int) : List Frame :=
  let b := beginNode b "PropertyEditor"
  let b := setAttr b "Type" (DomVal.strV "ContainerActionButton")
  let b := setAttr b "SharePriorColumn" (DomVal.boolV true)
  let b := setAttr b "UseMinimumWidth" (DomVal.boolV true)
  let b := setAttr b "Alignment" (DomVal.strV "AlignRight")
  let b := setAttr b "Action" (DomVal.strV action)
  let b := if ancestorDisabled then setAttr b "AncestorDisabled" (DomVal.boolV true) else b
  let b := if disabled then setAttr b "Disabled" (DomVal.boolV true) else b
  let b := if containerIndex ≠ -1 then
      setAttr b "ContainerIndex" (DomVal.intV containerIndex)
    else b
  let b := setAttr b "OnActivate" handlerMarker
  endNode b

/-- `CheckContainerElement` (lines 657-730): when the visited value carries a
    usable `ParentContainer`/`ParentContainerInstance` attribute pair,
    register the element at the current builder path and add the
    move/remove buttons the parent container allows. -/
def CheckContainerElement (st : GenState) (attrs : List (String × DomVal)) : GenState :=
  match lookupAttr attrs "ParentContainer", lookupAttr attrs "ParentContainerInstance" with
  | some pc, some pci =>
    if pc.isNullV || pci.isNullV then
      st
    else
      let st := { st with
        containerElems := setContainerElem st.containerElems (currentPath st.builder) pc }
      let parentCanBeModified :=
        match lookupAttr attrs "ParentContainerCanBeModified" with
        | some v => v.asBoolTrue
        | none => true
      if !pcIsFixedSize pc && parentCanBeModified then
        let isAncestorDisabled :=
          match lookupAttr attrs "AncestorDisabled" with
          | some (DomVal.boolV bv) => bv
          | _ => false
        let b1 :=
          if validPointerAttr pci && (decide (1 < pcSize pc) && pcIsSequence pc) then
            let i := containerIndexOf attrs
            let b := CreateContainerButton st.builder "MoveUp" (decide (i = 0))
              isAncestorDisabled i
            CreateContainerButton b "MoveDown" (decide (i = pcSize pc - 1))
              isAncestorDisabled i
          else
            st.builder
        { st with builder := CreateContainerButton b1 "RemoveElement" false isAncestorDisabled (-1) }
      else
        st
  | _, _ => st

/-- `AdapterBuilder::BeginPropertyEditor(name, value)`: a `PropertyEditor`
    node with its `Type` and `Value` attributes. -/
def BeginPropertyEditor (b : List Frame) (ty : String) (value : DomVal) : List Frame :=
  setAttr (setAttr (beginNode b "PropertyEditor") "Type" (DomVal.strV ty)) "Value" value

/-- `ForwardAttributes` (lines 361-392): forward every non-ignored
    default-group attribute onto the current node. -/
def ForwardAttributes (rowAttrNames : List String) (b : List Frame)
    (attrs : List (String × DomVal)) : List Frame :=
  (forwardedAttrs rowAttrNames attrs).foldl (fun bb kv => setAttr bb kv.1 kv.2) b

/-- `VisitValue` (lines 394-429). `hashValue` is always false on the
    primitive path; the `ValueHashed` attribute's hash is abstracted to 0. -/
def VisitValue (rowAttrNames : List String) (st : GenState) (value : DomVal)
    (attrs : List (String × DomVal)) (onChanged : Cb) (createRow : Bool)
    (hashValue : Bool) : GenState :=
  let st :=
    if createRow then
      let b := beginNode st.builder "Row"
      let b :=
        match labelOf attrs with
        | some s => endNode (setAttr (beginNode b "Label") "Value" (DomVal.strV s))
        | none => b
      { st with builder := b }
    else
      st
  let b := BeginPropertyEditor st.builder (GetPropertyEditor attrs) value
  let b := ForwardAttributes rowAttrNames b attrs
  let cbs := setCb st.callbacks (currentPath b) onChanged
  let b := setAttr b "OnChanged" handlerMarker
  let b := setAttr b "RequestTreeUpdate" handlerMarker
  let b := if hashValue then setAttr b "ValueHashed" (DomVal.intV 0) else b
  let b := endNode b
  let st := CheckContainerElement { st with builder := b, callbacks := cbs } attrs
  if createRow then { st with builder := endNode st.builder } else st

/-- The parsed `Visibility` attribute
    (`PropertyEditor::Visibility.DomToValue(...).value_or(Show)`). -/
def visibilityOf (attrs : List (String × DomVal)) : String :=
  match lookupAttr attrs "Visibility" with
  | some (DomVal.strV s) => s
  | _ => "Show"

/-- A visited value is shown unless its visibility is `Hide` or
    `ShowChildrenOnly`. -/
def isVisible (attrs : List (String × DomVal)) : Bool :=
  ¬(visibilityOf attrs = "Hide" ∨ visibilityOf attrs = "ShowChildrenOnly")

/-- The onChanged callback `VisitPrimitive` installs (lines 552-562):
    extract the primitive from the DOM value; on success write it to the
    instance address; return the instance's value re-encoded. -/
def primCb (addr : Nat) : Cb := fun mem v =>
  match v with
  | DomVal.intV n => (fun a => if a = addr then n else mem a, DomVal.intV n)
  | _ => (mem, DomVal.intV (mem addr))

/-- `VisitPrimitive` (lines 534-565) for a primitive living at `addr` in
    instance memory. -/
def VisitPrimitive (rowAttrNames : List String) (mem : Mem) (st : GenState)
    (addr : Nat) (attrs : List (String × DomVal)) : GenState :=
  if visibilityOf attrs = "Hide" ∨ visibilityOf attrs = "ShowChildrenOnly" then
    st
  else
    VisitValue rowAttrNames st (DomVal.intV (mem addr)) attrs (primCb addr) true false

/-- `ReflectionAdapter::GenerateContents` (lines 1158-1173): begin the
    adapter node, register the adapter message handlers, clear the callback
    and container tables, visit the instance when non-null (the reflection
    walk `VisitLegacyInMemoryInstance` is outside the excerpt and is modelled
    as the sequence of primitive visits it issues), and take the result. -/
def GenerateContents (rowAttrNames : List String) (mem : Mem)
    (inst : Option (List (Nat × List (String × DomVal)))) : DomVal × GenState :=
  let b := beginNode [] "Adapter"
  let b := setAttr b "QueryKey" handlerMarker
  let b := setAttr b "AddContainerKey" handlerMarker
  let b := setAttr b "RejectContainerKey" handlerMarker
  let b := setAttr b "SetNodeDisabled" handlerMarker
  let st : GenState := { builder := b, callbacks := [], containerElems := [] }
  let st :=
    match inst with
    | some visits =>
      visits.foldl (fun s v => VisitPrimitive rowAttrNames mem s v.1 v.2) st
    | none => st
  (finishRoot st.builder, st)

/-- `DomPrefixTree::ValueAtPath(..., PrefixTreeMatch::ExactPath)` over the
    callback table. -/
def lookupCb (l : List (Path × Cb)) (p : Path) : Option Cb :=
  (l.find? (fun e => e.1 = p)).map (·.2)

inductive PatchOp where
  | replaceOp (path : Path) (value : DomVal)

/-- Notifications issued while handling `PropertyEditor::OnChanged`. -/
inductive AdapterEvent where
  | contentsChanged (patch : List PatchOp)
  | propertyChanged (path : Path) (value : DomVal) (changeType : Nat)

/-- `handlePropertyEditorChanged` (lines 1177-1186) together with
    `UpdateDomContents` (lines 1147-1150) and `NotifyPropertyChanged` (lines
    1136-1139): with a callback registered at exactly the origin path, invoke
    it, publish one `ReplaceOperation` at `origin / "Value"`, and signal the
    property-change event; otherwise do nothing. -/
def handlePropertyEditorChanged (cbs : List (Path × Cb)) (mem : Mem)
    (origin : Path) (valueFromEditor : DomVal) (changeType : Nat) :
    Mem × List AdapterEvent :=
  match lookupCb cbs origin with
  | none => (mem, [])
  | some changeHandler =>
    let r := changeHandler mem valueFromEditor
    (r.1,
     [AdapterEvent.contentsChanged
        [PatchOp.replaceOp (origin ++ [PathEl.field "Value"]) r.2],
      AdapterEvent.propertyChanged origin r.2 changeType])

/-! ### Flat characterization of the builder output -/

/-- The `Label` node `ReflectionAdapter::CreateLabel` emits. -/
def labelNode (s : String) : DomVal := DomVal.node "Label" [("Value", DomVal.strV s)] []

/-- 1 when the row gets a label child, else 0. -/
def labelLen (attrs : List (String × DomVal)) : Nat :=
  match labelOf attrs with
  | some _ => 1
  | none => 0

/-- The attribute list of the property editor node `VisitValue` builds for a
    primitive at `addr`. -/
def peAttrs (rowAttrNames : List String) (mem : Mem) (addr : Nat)
    (attrs : List (String × DomVal)) : List (String × DomVal) :=
  [("Type", DomVal.strV (GetPropertyEditor attrs)), ("Value", DomVal.intV (mem addr))]
    ++ forwardedAttrs rowAttrNames attrs
    ++ [("OnChanged", handlerMarker), ("RequestTreeUpdate", handlerMarker)]

/-- The property editor node for a primitive visit. -/
def peNode (rowAttrNames : List String) (mem : Mem) (addr : Nat)
    (attrs : List (String × DomVal)) : DomVal :=
  DomVal.node "PropertyEditor" (peAttrs rowAttrNames mem addr attrs) []

/-- The container-action button node `CreateContainerButton` emits. -/
def buttonNode (action : String) (disabled ancestorDisabled : Bool) (i : Int) : DomVal :=
  DomVal.node "PropertyEditor"
    ([("Type", DomVal.strV "ContainerActionButton"),
      ("SharePriorColumn", DomVal.boolV true),
      ("UseMinimumWidth", DomVal.boolV true),
      ("Alignment", DomVal.strV "AlignRight"),
      ("Action", DomVal.strV action)]
     ++ (if ancestorDisabled then [("AncestorDisabled", DomVal.boolV true)] else [])
     ++ (if disabled then [("Disabled", DomVal.boolV true)] else [])
     ++ (if i ≠ -1 then [("ContainerIndex", DomVal.intV i)] else [])
     ++ [("OnActivate", handlerMarker)]) []

/-- The `ParentContainer` payload `CheckContainerElement` registers, when it
    registers one. -/
def registersContainerElem (attrs : List (String × DomVal)) : Option DomVal :=
  match lookupAttr attrs "ParentContainer", lookupAttr attrs "ParentContainerInstance" with
  | some pc, some pci => if pc.isNullV || pci.isNullV then none else some pc
  | _, _ => none

/-- The container buttons `CheckContainerElement` appends to the row. -/
def buttonsFor (attrs : List (String × DomVal)) : List DomVal :=
  match lookupAttr attrs "ParentContainer", lookupAttr attrs "ParentContainerInstance" with
  | some pc, some pci =>
    if pc.isNullV || pci.isNullV then
      []
    else
      let parentCanBeModified :=
        match lookupAttr attrs "ParentContainerCanBeModified" with
        | some v => v.asBoolTrue
        | none => true
      if !pcIsFixedSize pc && parentCanBeModified then
        let isAncestorDisabled :=
          match lookupAttr attrs "AncestorDisabled" with
          | some (DomVal.boolV bv) => bv
          | _ => false
        (if validPointerAttr pci && (decide (1 < pcSize pc) && pcIsSequence pc) then
          let i := containerIndexOf attrs
          [buttonNode "MoveUp" (decide (i = 0)) isAncestorDisabled i,
           buttonNode "MoveDown" (decide (i = pcSize pc - 1)) isAncestorDisabled i]
         else []) ++ [buttonNode "RemoveElement" false isAncestorDisabled (-1)]
      else
        []
  | _, _ => []

/-- The row a visible primitive visit contributes: an optional label, the
    property editor carrying the value and forwarded attributes, and any
    container-action buttons. -/
def rowFor (rowAttrNames : List String) (mem : Mem) (addr : Nat)
    (attrs : List (String × DomVal)) : DomVal :=
  DomVal.node "Row" []
    ((match labelOf attrs with
      | some s => [labelNode s]
      | none => []) ++
     [peNode rowAttrNames mem addr attrs] ++ buttonsFor attrs)

/-- The rows of all visible visits, in visit order. -/
def rowsFor (rowAttrNames : List String) (mem : Mem)
    (visits : List (Nat × List (String × DomVal))) : List DomVal :=
  (visits.filter (fun v => isVisible v.2)).map (fun v => rowFor rowAttrNames mem v.1 v.2)

/-- The onChanged callbacks registered during generation: exactly one per
    visible visit, keyed by that visit's property editor path. -/
def cbListFor (base : Nat) (visits : List (Nat × List (String × DomVal))) :
    List (Path × Cb) :=
  match visits with
  | [] => []
  | v :: rest =>
    if isVisible v.2 then
      ([PathEl.idx base, PathEl.idx (labelLen v.2)], primCb v.1) :: cbListFor (base + 1) rest
    else
      cbListFor base rest

/-- The container-element registrations made during generation, keyed by the
    row path. -/
def ceListFor (base : Nat) (visits : List (Nat × List (String × DomVal))) :
    List (Path × DomVal) :=
  match visits with
  | [] => []
  | v :: rest =>
    if isVisible v.2 then
      (match registersContainerElem v.2 with
       | some pc => [(([PathEl.idx base] : Path), pc)]
       | none => []) ++ ceListFor (base + 1) rest
    else
      ceListFor base rest

theorem foldl_setAttr (l : List (String × DomVal)) (f : Frame) (fs : List Frame) :
    l.foldl (fun bb kv => setAttr bb kv.1 kv.2) (f :: fs) =
      { f with attrs := f.attrs ++ l } :: fs := by
  induction l generalizing f with
  | nil => simp
  | cons kv rest ih =>
    simp only [List.foldl_cons]
    have h1 : setAttr (f :: fs) kv.1 kv.2 =
        { f with attrs := f.attrs ++ [(kv.1, kv.2)] } :: fs := rfl
    rw [h1, ih]
    simp

theorem createContainerButton_spec (f : Frame) (fs : List Frame) (action : String)
    (d ad : Bool) (i : Int) :
    CreateContainerButton (f :: fs) action d ad i =
      { f with children := f.children ++ [buttonNode action d ad i] } :: fs := by
  cases d <;> cases ad <;>
    by_cases hi : i ≠ -1 <;>
      simp [CreateContainerButton, beginNode, setAttr, endNode, buttonNode, hi]

theorem checkContainerElement_spec (cbs : List (Path × Cb))
    (ces : List (Path × DomVal)) (f : Frame) (fs : List Frame)
    (attrs : List (String × DomVal)) :
    CheckContainerElement ⟨f :: fs, cbs, ces⟩ attrs =
      ⟨{ f with children := f.children ++ buttonsFor attrs } :: fs,
       cbs,
       match registersContainerElem attrs with
       | some pc => setContainerElem ces (currentPath (f :: fs)) pc
       | none => ces⟩ := by
  unfold CheckContainerElement buttonsFor registersContainerElem
  cases hpc : lookupAttr attrs "ParentContainer" with
  | none =>
    cases hpci : lookupAttr attrs "ParentContainerInstance" <;> simp
  | some pc =>
    cases hpci : lookupAttr attrs "ParentContainerInstance" with
    | none => simp
    | some pci =>
      by_cases h0 : (DomVal.isNullV pc || DomVal.isNullV pci) = true
      · simp [h0]
      · rw [Bool.not_eq_true] at h0
        by_cases h1 : (!pcIsFixedSize pc &&
            match lookupAttr attrs "ParentContainerCanBeModified" with
            | some v => v.asBoolTrue
            | none => true) = true
        · by_cases h2 : (validPointerAttr pci &&
              (decide (1 < pcSize pc) && pcIsSequence pc)) = true
          · simp only [h0, h1, h2, Bool.false_eq_true, if_false, if_true]
            rw [createContainerButton_spec, createContainerButton_spec,
              createContainerButton_spec]
            simp
          · rw [Bool.not_eq_true] at h2
            simp only [h0, h1, h2, Bool.false_eq_true, if_false, if_true]
            rw [createContainerButton_spec]
            simp
        · rw [Bool.not_eq_true] at h1
          simp [h0, h1]

theorem setAttr_cons (f : Frame) (fs : List Frame) (k : String) (v : DomVal) :
    setAttr (f :: fs) k v = { f with attrs := f.attrs ++ [(k, v)] } :: fs := rfl

theorem endNode_cons (f p : Frame) (fs : List Frame) :
    endNode (f :: p :: fs) =
      { p with children := p.children ++ [DomVal.node f.nodeName f.attrs f.children] } :: fs :=
  rfl

theorem beginPropertyEditor_cons (b : List Frame) (ty : String) (v : DomVal) :
    BeginPropertyEditor b ty v =
      ⟨"PropertyEditor", [("Type", DomVal.strV ty), ("Value", v)], []⟩ :: b := rfl

theorem forwardAttributes_cons (rowAttrNames : List String) (f : Frame)
    (fs : List Frame) (attrs : List (String × DomVal)) :
    ForwardAttributes rowAttrNames (f :: fs) attrs =
      { f with attrs := f.attrs ++ forwardedAttrs rowAttrNames attrs } :: fs :=
  foldl_setAttr _ f fs

theorem currentPath_three (a b c : Frame) :
    currentPath [a, b, c] = [PathEl.idx c.children.length, PathEl.idx b.children.length] := by
  simp [currentPath]

theorem currentPath_two (b c : Frame) :
    currentPath [b, c] = [PathEl.idx c.children.length] := by
  simp [currentPath]

theorem visitPrimitive_spec (rowAttrNames : List String) (mem : Mem) (addr : Nat)
    (attrs : List (String × DomVal)) (g : Frame) (cbs : List (Path × Cb))
    (ces : List (Path × DomVal)) (hvis : isVisible attrs = true) :
    VisitPrimitive rowAttrNames mem ⟨[g], cbs, ces⟩ addr attrs =
      ⟨[{ g with children := g.children ++ [rowFor rowAttrNames mem addr attrs] }],
       setCb cbs [PathEl.idx g.children.length, PathEl.idx (labelLen attrs)] (primCb addr),
       match registersContainerElem attrs with
       | some pc => setContainerElem ces [PathEl.idx g.children.length] pc
       | none => ces⟩ := by
  have hv : ¬(visibilityOf attrs = "Hide" ∨ visibilityOf attrs = "ShowChildrenOnly") := by
    simpa [isVisible] using hvis
  unfold VisitPrimitive
  rw [if_neg hv]
  unfold VisitValue
  cases hl : labelOf attrs with
  | none =>
    simp only [hl, if_true, Bool.false_eq_true, if_false, beginNode,
      beginPropertyEditor_cons, forwardAttributes_cons, setAttr_cons, endNode_cons,
      currentPath_three]
    rw [checkContainerElement_spec]
    simp only [endNode_cons]
    simp [rowFor, peNode, peAttrs, labelLen, hl, labelNode, currentPath_two]
  | some s =>
    simp only [hl, if_true, Bool.false_eq_true, if_false, beginNode, setAttr_cons,
      endNode_cons, beginPropertyEditor_cons, forwardAttributes_cons, currentPath_three]
    rw [checkContainerElement_spec]
    simp only [endNode_cons]
    simp [rowFor, peNode, peAttrs, labelLen, hl, labelNode, currentPath_two]

theorem setCb_fresh (l : List (Path × Cb)) (p : Path) (cb : Cb)
    (h : ∀ e ∈ l, e.1 ≠ p) : setCb l p cb = l ++ [(p, cb)] := by
  unfold setCb
  rw [if_neg]
  simp only [List.any_eq_true, decide_eq_true_eq, not_exists]
  exact fun e he => h e he.1 he.2

theorem setContainerElem_fresh (l : List (Path × DomVal)) (p : Path) (v : DomVal)
    (h : ∀ e ∈ l, e.1 ≠ p) : setContainerElem l p v = l ++ [(p, v)] := by
  unfold setContainerElem
  rw [if_neg]
  simp only [List.any_eq_true, decide_eq_true_eq, not_exists]
  exact fun e he => h e he.1 he.2

/-- Folding the primitive visits over a single-frame builder appends one row
    per visible visit and extends the callback and container tables with
    fresh row-indexed paths. -/
theorem generate_fold_spec (rowAttrNames : List String) (mem : Mem)
    (visits : List (Nat × List (String × DomVal))) (g : Frame)
    (cbs : List (Path × Cb)) (ces : List (Path × DomVal))
    (hcbs : ∀ e ∈ cbs, ∃ j rest, e.1 = PathEl.idx j :: rest ∧ j < g.children.length)
    (hces : ∀ e ∈ ces, ∃ j rest, e.1 = PathEl.idx j :: rest ∧ j < g.children.length) :
    visits.foldl (fun s v => VisitPrimitive rowAttrNames mem s v.1 v.2) ⟨[g], cbs, ces⟩ =
      ⟨[{ g with children := g.children ++ rowsFor rowAttrNames mem visits }],
       cbs ++ cbListFor g.children.length visits,
       ces ++ ceListFor g.children.length visits⟩ := by
  induction visits generalizing g cbs ces with
  | nil => simp [rowsFor, cbListFor, ceListFor]
  | cons v rest ih =>
    rw [List.foldl_cons]
    by_cases hvis : visibilityOf v.2 = "Hide" ∨ visibilityOf v.2 = "ShowChildrenOnly"
    case neg =>
      have hv : isVisible v.2 = true := by
        simp only [isVisible, decide_eq_true_eq]
        exact hvis
      rw [visitPrimitive_spec rowAttrNames mem v.1 v.2 g cbs ces hv]
      have hfreshCb : ∀ e ∈ cbs,
          e.1 ≠ [PathEl.idx g.children.length, PathEl.idx (labelLen v.2)] := by
        intro e he hp
        obtain ⟨j, restp, hj, hlt⟩ := hcbs e he
        rw [hj] at hp
        cases hp
        exact absurd rfl (Nat.ne_of_lt hlt)
      rw [setCb_fresh cbs _ _ hfreshCb]
      have step : ∀ (ces2 : List (Path × DomVal)),
          (∀ e ∈ ces2, ∃ j rest2, e.1 = PathEl.idx j :: rest2 ∧
            j < g.children.length + 1) →
          rest.foldl (fun s v => VisitPrimitive rowAttrNames mem s v.1 v.2)
            ⟨[{ g with children := g.children ++ [rowFor rowAttrNames mem v.1 v.2] }],
             cbs ++ [([PathEl.idx g.children.length, PathEl.idx (labelLen v.2)],
               primCb v.1)], ces2⟩ =
          ⟨[{ g with children :=
                (g.children ++ [rowFor rowAttrNames mem v.1 v.2]) ++
                  rowsFor rowAttrNames mem rest }],
           (cbs ++ [([PathEl.idx g.children.length, PathEl.idx (labelLen v.2)],
               primCb v.1)]) ++ cbListFor (g.children.length + 1) rest,
           ces2 ++ ceListFor (g.children.length + 1) rest⟩ := by
        intro ces2 hces2
        have := ih { g with children := g.children ++ [rowFor rowAttrNames mem v.1 v.2] }
          (cbs ++ [([PathEl.idx g.children.length, PathEl.idx (labelLen v.2)], primCb v.1)])
          ces2 ?_ ?_
        · simpa using this
        · intro e he
          rcases List.mem_append.mp he with h1 | h1
          · obtain ⟨j, restp, hj, hlt⟩ := hcbs e h1
            exact ⟨j, restp, hj, by simp; omega⟩
          · simp at h1
            exact ⟨g.children.length, [PathEl.idx (labelLen v.2)], by rw [h1], by simp⟩
        · intro e he
          obtain ⟨j, restp, hj, hlt⟩ := hces2 e he
          exact ⟨j, restp, hj, by simpa using hlt⟩
      cases hr : registersContainerElem v.2 with
      | none =>
        rw [step ces (by
          intro e he
          obtain ⟨j, restp, hj, hlt⟩ := hces e he
          exact ⟨j, restp, hj, Nat.lt_succ_of_lt hlt⟩)]
        simp [rowsFor, cbListFor, ceListFor, hv, hr, List.filter_cons]
      | some pc =>
        have hfreshCe : ∀ e ∈ ces, e.1 ≠ [PathEl.idx g.children.length] := by
          intro e he hp
          obtain ⟨j, restp, hj, hlt⟩ := hces e he
          rw [hj] at hp
          cases hp
          exact absurd rfl (Nat.ne_of_lt hlt)
        dsimp only
        rw [setContainerElem_fresh ces _ _ hfreshCe]
        rw [step (ces ++ [([PathEl.idx g.children.length], pc)]) (by
          intro e he
          rcases List.mem_append.mp he with h1 | h1
          · obtain ⟨j, restp, hj, hlt⟩ := hces e h1
            exact ⟨j, restp, hj, Nat.lt_succ_of_lt hlt⟩
          · simp at h1
            exact ⟨g.children.length, [], by rw [h1], by simp⟩)]
        simp [rowsFor, cbListFor, ceListFor, hv, hr, List.filter_cons]
    case pos =>
      have hv : isVisible v.2 = false := by
        simp only [isVisible, decide_eq_false_iff_not, not_not]
        exact hvis
      have hskip : VisitPrimitive rowAttrNames mem ⟨[g], cbs, ces⟩ v.1 v.2 =
          ⟨[g], cbs, ces⟩ := by
        unfold VisitPrimitive
        rw [if_pos hvis]
      rw [hskip, ih g cbs ces hcbs hces]
      simp [rowsFor, cbListFor, ceListFor, hv, List.filter_cons]

/-- The four adapter-level message handlers `GenerateContents` registers. -/
def adapterHandlerAttrs : List (String × DomVal) :=
  [("QueryKey", handlerMarker), ("AddContainerKey", handlerMarker),
   ("RejectContainerKey", handlerMarker), ("SetNodeDisabled", handlerMarker)]

/-- C4: `GenerateContents` clears the onChanged-callback and container
    tables (the resulting tables hold exactly this run's registrations),
    visits the instance, and returns an `Adapter` node whose children are one
    `Row` per visible visited value — each row holding the optional `Label`,
    the `PropertyEditor` node carrying the value and its forwarded attributes
    (and any container buttons) — with the callbacks keyed by each property
    editor's builder path; a null instance skips the visit and yields an
    `Adapter` node holding only its message handlers. -/
theorem C4_generate_contents (rowAttrNames : List String) (mem : Mem)
    (visits : List (Nat × List (String × DomVal))) :
    GenerateContents rowAttrNames mem (some visits) =
      (DomVal.node "Adapter" adapterHandlerAttrs (rowsFor rowAttrNames mem visits),
       ⟨[⟨"Adapter", adapterHandlerAttrs, rowsFor rowAttrNames mem visits⟩],
        cbListFor 0 visits, ceListFor 0 visits⟩)
    ∧ GenerateContents rowAttrNames mem none =
      (DomVal.node "Adapter" adapterHandlerAttrs [],
       ⟨[⟨"Adapter", adapterHandlerAttrs, []⟩], [], []⟩) := by
  constructor
  · unfold GenerateContents
    dsimp only
    have e : setAttr (setAttr (setAttr (setAttr (beginNode [] "Adapter")
        "QueryKey" handlerMarker) "AddContainerKey" handlerMarker)
        "RejectContainerKey" handlerMarker) "SetNodeDisabled" handlerMarker =
        [(⟨"Adapter", adapterHandlerAttrs, []⟩ : Frame)] := rfl
    rw [e]
    rw [generate_fold_spec rowAttrNames mem visits ⟨"Adapter", adapterHandlerAttrs, []⟩
      [] [] (by simp) (by simp)]
    simp [finishRoot]
  · rfl

/-- C2: an `OnChanged` message at an origin path holding a registered
    callback computes the new value by invoking the callback on the
    editor-supplied value, notifies contents-changed listeners with exactly
    one `ReplaceOperation` at origin extended by `"Value"` carrying the new
    value, and signals the property-change event with the same path, new
    value and change type. -/
theorem C2_property_editor_changed (cbs : List (Path × Cb)) (mem : Mem)
    (origin : Path) (valueFromEditor : DomVal) (changeType : Nat) (cb : Cb)
    (hcb : lookupCb cbs origin = some cb) :
    handlePropertyEditorChanged cbs mem origin valueFromEditor changeType =
      ((cb mem valueFromEditor).1,
       [AdapterEvent.contentsChanged
          [PatchOp.replaceOp (origin ++ [PathEl.field "Value"])
            (cb mem valueFromEditor).2],
        AdapterEvent.propertyChanged origin (cb mem valueFromEditor).2 changeType]) := by
  simp [handlePropertyEditorChanged, hcb]

/-- Witness for C2: a registered primitive callback at path `[0]` receiving
    value 7. -/
theorem C2_property_editor_changed_witness :
    handlePropertyEditorChanged [([PathEl.idx 0], primCb 5)] (fun _ => 0)
        [PathEl.idx 0] (DomVal.intV 7) 1 =
      ((primCb 5 (fun _ => 0) (DomVal.intV 7)).1,
       [AdapterEvent.contentsChanged
          [PatchOp.replaceOp [PathEl.idx 0, PathEl.field "Value"] (DomVal.intV 7)],
        AdapterEvent.propertyChanged [PathEl.idx 0] (DomVal.intV 7) 1]) :=
  C2_property_editor_changed [([PathEl.idx 0], primCb 5)] (fun _ => 0)
    [PathEl.idx 0] (DomVal.intV 7) 1 (primCb 5) rfl

/-- C5: generation installs exactly one onChanged callback per property
    editor `VisitValue` creates — one table entry per visible visit, keyed by
    that editor's builder path — and an `OnChanged` message whose origin has
    no exactly-matching registered callback is a no-op: no patch, no
    property-change event, no instance write. -/
theorem C5_callback_registration_and_exact_match (rowAttrNames : List String)
    (mem : Mem) (visits : List (Nat × List (String × DomVal))) (base : Nat)
    (cbs : List (Path × Cb)) (origin : Path) (valueFromEditor : DomVal)
    (changeType : Nat) :
    (GenerateContents rowAttrNames mem (some visits)).2.callbacks = cbListFor 0 visits
    ∧ (cbListFor base visits).length =
        (visits.filter (fun v => isVisible v.2)).length
    ∧ (lookupCb cbs origin = none →
        handlePropertyEditorChanged cbs mem origin valueFromEditor changeType =
          (mem, [])) := by
  refine ⟨?_, ?_, fun h => ?_⟩
  · unfold GenerateContents
    dsimp only
    have e : setAttr (setAttr (setAttr (setAttr (beginNode [] "Adapter")
        "QueryKey" handlerMarker) "AddContainerKey" handlerMarker)
        "RejectContainerKey" handlerMarker) "SetNodeDisabled" handlerMarker =
        [(⟨"Adapter", adapterHandlerAttrs, []⟩ : Frame)] := rfl
    rw [e]
    rw [generate_fold_spec rowAttrNames mem visits ⟨"Adapter", adapterHandlerAttrs, []⟩
      [] [] (by simp) (by simp)]
    simp
  · induction visits generalizing base with
    | nil => simp [cbListFor]
    | cons v rest ih =>
      by_cases hv : isVisible v.2 = true
      · simp [cbListFor, hv, List.filter_cons, ih]
      · rw [Bool.not_eq_true] at hv
        simp [cbListFor, hv, List.filter_cons, ih]
  · simp [handlePropertyEditorChanged, h]

/-- Witness for C5: one visible visit yields exactly its one callback, and an
    unmatched origin is a no-op. -/
theorem C5_callback_registration_witness :
    (GenerateContents [] (fun _ => 0) (some [(4, [("Label", DomVal.strV "x")])])).2.callbacks =
      cbListFor 0 [(4, [("Label", DomVal.strV "x")])]
    ∧ handlePropertyEditorChanged [] (fun _ => 0) [PathEl.idx 0] DomVal.nullV 0 =
      ((fun _ => 0 : Mem), []) :=
  ⟨(C5_callback_registration_and_exact_match [] (fun _ => 0)
      [(4, [("Label", DomVal.strV "x")])] 0 [] [PathEl.idx 0] DomVal.nullV 0).1,
   (C5_callback_registration_and_exact_match [] (fun _ => 0)
      [(4, [("Label", DomVal.strV "x")])] 0 [] [PathEl.idx 0] DomVal.nullV 0).2.2 rfl⟩

end Gen

/-! ## `handleSetNodeDisabled` (ReflectionAdapter.cpp lines 1188-1329) -/

namespace Disable

abbrev DV := Gen.DomVal

def isNode : DV → Bool
  | .node _ _ _ => true
  | _ => false

def nodeName : DV → String
  | .node n _ _ => n
  | _ => ""

def nodeAttrs : DV → List (String × DV)
  | .node _ a _ => a
  | _ => []

def nodeChildren : DV → List DV
  | .node _ _ c => c
  | _ => []

/-- `FindMember(attr)` present with `GetBool()` true (`GetBool` on a
    non-bool member is modelled as false). -/
def attrTruthy (v : DV) (attr : String) : Bool :=
  match Gen.lookupAttr (nodeAttrs v) attr with
  | some (.boolV b) => b
  | _ => false

/-- `Dom::Value::operator[]` composed along a path of array indices. -/
def navigate : DV → List Nat → Option DV
  | v, [] => some v
  | v, i :: rest =>
    match (nodeChildren v)[i]? with
    | some c => navigate c rest
    | none => none

/-- The patch operations this handler emits: `AddOperation(path / attr,
    Value(true))` and `RemoveOperation(path / attr)`. -/
inductive DPatchOp where
  | addOp (path : List Nat) (attr : String)
  | removeOp (path : List Nat) (attr : String)
deriving DecidableEq

mutual

def dvSize : DV → Nat
  | .node _ _ cs => 1 + dvSizeList cs
  | _ => 1

def dvSizeList : List DV → Nat
  | [] => 0
  | c :: cs => dvSize c + dvSizeList cs

end

def stackSize : List (List Nat × DV) → Nat
  | [] => 0
  | (_, v) :: rest => dvSize v + stackSize rest

/-- `queueDescendantsForSearch` (lines 1208-1219) for a child list starting
    at index `i`: the node-valued children with their paths, in index order. -/
def nodeListWithPaths (p : List Nat) (i : Nat) : List DV → List (List Nat × DV)
  | [] => []
  | c :: cs =>
    (if isNode c then [(p ++ [i], c)] else []) ++ nodeListWithPaths p (i + 1) cs

/-- The children a node contributes to the descendant search. -/
def nodeChildrenWithPaths (p : List Nat) (v : DV) : List (List Nat × DV) :=
  nodeListWithPaths p 0 (nodeChildren v)

/-- The `AncestorDisabled` operation for one node (add when disabling,
    remove when enabling). -/
def ancOp (disable : Bool) (p : List Nat) : DPatchOp :=
  if disable then .addOp p "AncestorDisabled" else .removeOp p "AncestorDisabled"

/-- The condition under which the `AncestorDisabled` operation is pushed
    (lines 1285-1292 / 1315-1322): when disabling, the attribute is not yet
    truthy; when enabling, it is. -/
def ancCond (disable : Bool) (v : DV) : Bool :=
  if disable then !attrTruthy v "AncestorDisabled" else attrTruthy v "AncestorDisabled"

/-- The `Disabled` operation for the target (or a row child). -/
def rowOp (disable : Bool) (p : List Nat) : DPatchOp :=
  if disable then .addOp p "Disabled" else .removeOp p "Disabled"

/-- The row-child condition (lines 1271-1277 / 1301-1307). -/
def rowCond (disable : Bool) (v : DV) : Bool :=
  if disable then !attrTruthy v "Disabled" else attrTruthy v "Disabled"

theorem dvSize_pos (v : DV) : 1 ≤ dvSize v := by
  cases v <;> simp [dvSize]

theorem stackSize_append (a b : List (List Nat × DV)) :
    stackSize (a ++ b) = stackSize a + stackSize b := by
  induction a with
  | nil => simp [stackSize]
  | cons x rest ih =>
    cases x
    simp [stackSize, ih]
    omega

theorem stackSize_reverse (a : List (List Nat × DV)) :
    stackSize a.reverse = stackSize a := by
  induction a with
  | nil => rfl
  | cons x rest ih =>
    cases x
    rw [List.reverse_cons, stackSize_append]
    simp [stackSize, ih]
    omega

theorem stackSize_nodeListWithPaths (p : List Nat) (i : Nat) (l : List DV) :
    stackSize (nodeListWithPaths p i l) ≤ dvSizeList l := by
  induction l generalizing i with
  | nil => simp [nodeListWithPaths, stackSize, dvSizeList]
  | cons c cs ih =>
    have h1 := ih (i + 1)
    have h2 := dvSize_pos c
    by_cases hc : isNode c = true <;>
      simp [nodeListWithPaths, hc, stackSize_append, stackSize, dvSizeList] <;>
        omega

theorem dvSizeList_children_lt (v : DV) : dvSizeList (nodeChildren v) < dvSize v := by
  cases v <;> simp [nodeChildren, dvSize, dvSizeList]

/-- `propagateAttributeChangeToDescendants` (lines 1242-1262): the explicit
    stack loop; pushing children in index order makes the last child the top
    of the stack, so the pushed block is the reversed child list. -/
theorem stackSize_queued_le (p : List Nat) (v : DV) :
    stackSize (if attrTruthy v "Disabled" then [] else nodeChildrenWithPaths p v) ≤
      dvSizeList (nodeChildren v) := by
  by_cases h : attrTruthy v "Disabled" = true
  · simp [h, stackSize]
  · rw [Bool.not_eq_true] at h
    simp only [h, Bool.false_eq_true, if_false]
    exact stackSize_nodeListWithPaths p 0 (nodeChildren v)

theorem ancLoop_dec (p : List Nat) (v : DV) (rest : List (List Nat × DV)) :
    stackSize ((if attrTruthy v "Disabled" then []
        else nodeChildrenWithPaths p v).reverse ++ rest) <
      stackSize ((p, v) :: rest) := by
  simp only [stackSize, stackSize_append, stackSize_reverse]
  have h1 := stackSize_queued_le p v
  have h2 := dvSizeList_children_lt v
  omega

/-- `propagateAttributeChangeToDescendants` (lines 1242-1262): the explicit
    stack loop; pushing children in index order makes the last child the top
    of the stack, so the pushed block is the reversed child list. -/
def ancLoop (disable : Bool) (s : List (List Nat × DV)) : List DPatchOp :=
  match s with
  | [] => []
  | (p, v) :: rest =>
    (if nodeName v ≠ "Row" ∧ ancCond disable v = true then [ancOp disable p] else [])
      ++ ancLoop disable
          ((if attrTruthy v "Disabled" then [] else nodeChildrenWithPaths p v).reverse
            ++ rest)
termination_by stackSize s
decreasing_by
  simp only [dite_eq_ite]
  exact ancLoop_dec _ _ _

mutual

/-- Recursive rendering of the descendant traversal from one stack entry:
    the node's own operation (unless it is a Row), then — when its
    `Disabled` attribute is not truthy — its node children, last child
    first. -/
def collectAnc (disable : Bool) (p : List Nat) (v : DV) : List DPatchOp :=
  (if nodeName v ≠ "Row" ∧ ancCond disable v = true then [ancOp disable p] else [])
    ++ (if attrTruthy v "Disabled" then []
        else collectStack disable (nodeChildrenWithPaths p v).reverse)
termination_by 2 * dvSize v
decreasing_by
  have h1 := stackSize_nodeListWithPaths p 0 (nodeChildren v)
  rw [← stackSize_reverse] at h1
  have h2 := dvSizeList_children_lt v
  simp only [nodeChildrenWithPaths]
  omega

def collectStack (disable : Bool) (s : List (List Nat × DV)) : List DPatchOp :=
  match s with
  | [] => []
  | (p, v) :: rest => collectAnc disable p v ++ collectStack disable rest
termination_by 2 * stackSize s + 1
decreasing_by
  · simp only [stackSize]
    omega
  · simp only [stackSize]
    have := dvSize_pos v
    omega

end

/-- `propagateAttributeChangeToRow`'s per-child operations (lines
    1221-1239): one `Disabled` operation for each non-Row node child
    satisfying the condition, in child order. -/
def rowChildOps (disable : Bool) (p : List Nat) (i : Nat) : List DV → List DPatchOp
  | [] => []
  | c :: cs =>
    (if isNode c ∧ nodeName c ≠ "Row" ∧ rowCond disable c = true then
      [rowOp disable (p ++ [i])]
     else []) ++ rowChildOps disable p (i + 1) cs

/-- The grandchildren `propagateAttributeChangeToRow` queues: every node
    child contributes its own node children (regardless of the child's
    `Disabled` state), in child order. -/
def rowGrandchildren (p : List Nat) (i : Nat) : List DV → List (List Nat × DV)
  | [] => []
  | c :: cs =>
    (if isNode c then nodeChildrenWithPaths (p ++ [i]) c else [])
      ++ rowGrandchildren p (i + 1) cs

/-- `handleSetNodeDisabled` (lines 1188-1329), returning the emitted patch:
    an invalid target yields an empty patch; a Row target gets per-child
    `Disabled` operations and a descendant search seeded with all
    grandchildren; any other node gets its own unconditional `Disabled`
    operation and a search seeded with its children. -/
def handleSetNodeDisabled (contents : DV) (shouldDisable : Bool)
    (targetNodePath : List Nat) : List DPatchOp :=
  match navigate contents targetNodePath with
  | none => []
  | some targetNode =>
    if !isNode targetNode then
      []
    else if nodeName targetNode = "Row" then
      rowChildOps shouldDisable targetNodePath 0 (nodeChildren targetNode)
        ++ ancLoop shouldDisable
            (rowGrandchildren targetNodePath 0 (nodeChildren targetNode)).reverse
    else
      rowOp shouldDisable targetNodePath
        :: ancLoop shouldDisable (nodeChildrenWithPaths targetNodePath targetNode).reverse

/-- `NotifyContentsChanged` is invoked only when the patch is non-empty
    (lines 1325-1328): the number of notifications for one handling. -/
def notifyCount (contents : DV) (shouldDisable : Bool) (p : List Nat) : Nat :=
  if handleSetNodeDisabled contents shouldDisable p = [] then 0 else 1

/-- Replace-or-add a member (the effect of a `Dom` add operation at an
    attribute path). -/
def setMember (attrs : List (String × DV)) (k : String) (val : DV) :
    List (String × DV) :=
  if attrs.any (fun e => e.1 = k) then
    attrs.map (fun e => if e.1 = k then (k, val) else e)
  else
    attrs ++ [(k, val)]

def setAttrNode (v : DV) (k : String) : DV :=
  match v with
  | .node n attrs cs => .node n (setMember attrs k (.boolV true)) cs
  | other => other

def removeAttrNode (v : DV) (k : String) : DV :=
  match v with
  | .node n attrs cs => .node n (attrs.filter (fun e => ¬e.1 = k)) cs
  | other => other

/-- Apply a function to the node at a path (identity when the path is
    invalid). -/
def updateAt (v : DV) (path : List Nat) (f : DV → DV) : DV :=
  match path with
  | [] => f v
  | i :: rest =>
    match v with
    | .node n attrs cs =>
      match cs[i]? with
      | some c => .node n attrs (cs.set i (updateAt c rest f))
      | none => v
    | other => other

/-- Apply one emitted patch operation to the cached contents. -/
def applyOp (v : DV) : DPatchOp → DV
  | .addOp p attr => updateAt v p (fun w => setAttrNode w attr)
  | .removeOp p attr => updateAt v p (fun w => removeAttrNode w attr)

/-- Apply an emitted patch (the contents update listeners observe). -/
def applyPatch (v : DV) (ops : List DPatchOp) : DV :=
  ops.foldl applyOp v

/-- A contents tree whose child 0 is a non-Row node that is already
    disabled. -/
def cexTree : DV :=
  .node "Adapter" [] [.node "PropertyEditor" [("Disabled", Gen.DomVal.boolV true)] []]

/-- Counterexample to C6 as stated: targeting a valid, already-disabled
    non-Row node with `SetNodeDisabled(true)` still emits the
    `Disabled=true` add operation (the "unless it is already disabled" guard
    exists only for Row targets), so the patch is never empty and handling
    the same message twice notifies listeners twice, not at most once. -/
theorem C6_counterexample :
    (navigate cexTree [0]).isSome = true
    ∧ attrTruthy ((navigate cexTree [0]).getD .nullV) "Disabled" = true
    ∧ ¬(DPatchOp.addOp [0] "Disabled" ∉ handleSetNodeDisabled cexTree true [0])
    ∧ ¬(notifyCount cexTree true [0] +
          notifyCount (applyPatch cexTree (handleSetNodeDisabled cexTree true [0]))
            true [0] ≤ 1) := by
  have h3 : handleSetNodeDisabled cexTree true [0] = [DPatchOp.addOp [0] "Disabled"] := by
    simp [handleSetNodeDisabled, cexTree, navigate, nodeChildren, isNode, nodeName,
      rowOp, ancLoop, nodeChildrenWithPaths, nodeListWithPaths]
  have h5 : applyPatch cexTree (handleSetNodeDisabled cexTree true [0]) = cexTree := by
    rw [h3]
    simp [applyPatch, applyOp, updateAt, cexTree, setAttrNode, setMember, nodeChildren]
  refine ⟨rfl, rfl, ?_, ?_⟩
  · rw [h3]
    simp
  · rw [h5]
    simp [notifyCount, h3]

theorem collectStack_append (disable : Bool) (a b : List (List Nat × DV)) :
    collectStack disable (a ++ b) = collectStack disable a ++ collectStack disable b := by
  induction a with
  | nil => simp [collectStack]
  | cons x rest ih =>
    cases x with
    | mk p v => simp [collectStack, ih]

theorem ancLoop_eq_collect_aux (disable : Bool) :
    ∀ n (s : List (List Nat × DV)), stackSize s ≤ n →
      ancLoop disable s = collectStack disable s := by
  intro n
  induction n with
  | zero =>
    intro s h
    match s with
    | [] => simp [ancLoop, collectStack]
    | (p, v) :: rest =>
      exfalso
      have := dvSize_pos v
      simp [stackSize] at h
      omega
  | succ n ih =>
    intro s h
    match s with
    | [] => simp [ancLoop, collectStack]
    | (p, v) :: rest =>
      have hq := stackSize_queued_le p v
      have hlt := dvSizeList_children_lt v
      have h1 : stackSize ((if attrTruthy v "Disabled" then []
          else nodeChildrenWithPaths p v).reverse ++ rest) ≤ n := by
        rw [stackSize_append, stackSize_reverse]
        simp only [stackSize] at h
        omega
      have hrest : stackSize rest ≤ n := by
        have := dvSize_pos v
        simp only [stackSize] at h
        omega
      rw [ancLoop, ih _ h1, collectStack_append, collectStack, collectAnc]
      by_cases hd : attrTruthy v "Disabled" = true
      · simp [hd, collectStack, ← ih rest hrest]
      · rw [Bool.not_eq_true] at hd
        simp [hd, ← ih rest hrest]

/-- The stack traversal equals its recursive rendering. -/
theorem ancLoop_eq_collect (disable : Bool) (s : List (List Nat × DV)) :
    ancLoop disable s = collectStack disable s :=
  ancLoop_eq_collect_aux disable (stackSize s) s le_rfl

/-- Reachability of a descendant in the search: descend to a node child,
    then keep descending through node children of nodes whose `Disabled`
    attribute is not truthy. The endpoint itself may be disabled — only the
    crossed (intermediate) nodes must not be. -/
inductive Desc : DV → List Nat → DV → Prop
  | child {v : DV} (i : Nat) (c : DV) :
      (nodeChildren v)[i]? = some c → isNode c = true → Desc v [i] c
  | step {v : DV} (i : Nat) (c : DV) (q : List Nat) (d : DV) :
      (nodeChildren v)[i]? = some c → isNode c = true →
      attrTruthy c "Disabled" = false → Desc c q d → Desc v (i :: q) d

theorem mem_collectStack (disable : Bool) (s : List (List Nat × DV)) (op : DPatchOp) :
    op ∈ collectStack disable s ↔ ∃ e ∈ s, op ∈ collectAnc disable e.1 e.2 := by
  induction s with
  | nil => simp [collectStack]
  | cons x rest ih =>
    cases x with
    | mk p v =>
      rw [collectStack]
      simp only [List.mem_append, ih, List.mem_cons]
      constructor
      · rintro (h | ⟨e, he, hop⟩)
        · exact ⟨(p, v), Or.inl rfl, h⟩
        · exact ⟨e, Or.inr he, hop⟩
      · rintro ⟨e, (rfl | he), hop⟩
        · exact Or.inl hop
        · exact Or.inr ⟨e, he, hop⟩

theorem mem_nodeListWithPaths (p : List Nat) (l : List DV) :
    ∀ (i : Nat) (e : List Nat × DV),
      (e ∈ nodeListWithPaths p i l ↔
        ∃ j c, l[j]? = some c ∧ isNode c = true ∧ e = (p ++ [i + j], c)) := by
  induction l with
  | nil => simp [nodeListWithPaths]
  | cons c cs ih =>
    intro i e
    by_cases hc : isNode c = true
    · simp only [nodeListWithPaths, hc, List.mem_append, List.mem_singleton, if_true, ih]
      constructor
      · rintro (rfl | ⟨j, d, hj, hn, rfl⟩)
        · exact ⟨0, c, by simp, hc, by simp⟩
        · refine ⟨j + 1, d, by simpa using hj, hn, ?_⟩
          have : i + 1 + j = i + (j + 1) := by omega
          rw [← this]
      · rintro ⟨j, d, hj, hn, rfl⟩
        cases j with
        | zero =>
          simp only [List.getElem?_cons_zero, Option.some.injEq] at hj
          subst hj
          left
          simp
        | succ j =>
          right
          refine ⟨j, d, by simpa using hj, hn, ?_⟩
          have : i + (j + 1) = i + 1 + j := by omega
          rw [this]
    · simp only [nodeListWithPaths, hc, Bool.false_eq_true, if_false, List.nil_append, ih]
      rw [Bool.not_eq_true] at hc
      constructor
      · rintro ⟨j, d, hj, hn, rfl⟩
        refine ⟨j + 1, d, by simpa using hj, hn, ?_⟩
        have : i + 1 + j = i + (j + 1) := by omega
        rw [← this]
      · rintro ⟨j, d, hj, hn, rfl⟩
        cases j with
        | zero =>
          simp only [List.getElem?_cons_zero, Option.some.injEq] at hj
          subst hj
          rw [hc] at hn
          exact absurd hn (by simp)
        | succ j =>
          refine ⟨j, d, by simpa using hj, hn, ?_⟩
          have : i + (j + 1) = i + 1 + j := by omega
          rw [this]

theorem dvSize_getElem_le (l : List DV) :
    ∀ (j : Nat) (c : DV), l[j]? = some c → dvSize c ≤ dvSizeList l := by
  induction l with
  | nil => simp
  | cons x rest ih =>
    intro j c hj
    cases j with
    | zero =>
      simp only [List.getElem?_cons_zero, Option.some.injEq] at hj
      subst hj
      simp [dvSizeList]
    | succ j =>
      simp only [List.getElem?_cons_succ] at hj
      have := ih j c hj
      simp [dvSizeList]
      omega

theorem mem_seed_aux (disable : Bool) :
    ∀ n v, dvSize v ≤ n → ∀ (p : List Nat) (op : DPatchOp),
      (op ∈ collectStack disable (nodeChildrenWithPaths p v).reverse ↔
        ∃ q d, Desc v q d ∧ nodeName d ≠ "Row" ∧ ancCond disable d = true ∧
          op = ancOp disable (p ++ q)) := by
  intro n
  induction n with
  | zero =>
    intro v h
    have := dvSize_pos v
    omega
  | succ n ih =>
    intro v hv p op
    rw [mem_collectStack]
    constructor
    · rintro ⟨e, he, hop⟩
      rw [List.mem_reverse, nodeChildrenWithPaths] at he
      obtain ⟨j, c, hj, hn, rfl⟩ := (mem_nodeListWithPaths p (nodeChildren v) 0 e).mp he
      simp only [Nat.zero_add] at hop ⊢
      rw [collectAnc] at hop
      rcases List.mem_append.mp hop with hhead | hdeep
      · by_cases hcond : nodeName c ≠ "Row" ∧ ancCond disable c = true
        · rw [if_pos hcond, List.mem_singleton] at hhead
          exact ⟨[j], c, Desc.child j c hj hn, hcond.1, hcond.2, hhead⟩
        · rw [if_neg hcond] at hhead
          exact absurd hhead (List.not_mem_nil op)
      · by_cases hd : attrTruthy c "Disabled" = true
        · rw [if_pos hd] at hdeep
          exact absurd hdeep (List.not_mem_nil op)
        · rw [Bool.not_eq_true] at hd
          rw [if_neg (by simp [hd])] at hdeep
          have hsize : dvSize c ≤ n := by
            have h1 := dvSize_getElem_le (nodeChildren v) j c hj
            have h2 := dvSizeList_children_lt v
            omega
          obtain ⟨q, d, hdesc, hrow, hcond, rfl⟩ := (ih c hsize (p ++ [j]) op).mp hdeep
          exact ⟨j :: q, d, Desc.step j c q d hj hn hd hdesc, hrow, hcond, by simp⟩
    · rintro ⟨q, d, hdesc, hrow, hcond, rfl⟩
      cases hdesc with
      | child i c0 hj hn =>
        refine ⟨(p ++ [i], d), ?_, ?_⟩
        · rw [List.mem_reverse, nodeChildrenWithPaths]
          exact (mem_nodeListWithPaths p (nodeChildren v) 0 _).mpr
            ⟨i, d, hj, hn, by simp⟩
        · rw [collectAnc]
          apply List.mem_append_left
          rw [if_pos ⟨hrow, hcond⟩]
          simp
      | step i c q2 d2 hj hn hcd hdesc2 =>
        refine ⟨(p ++ [i], c), ?_, ?_⟩
        · rw [List.mem_reverse, nodeChildrenWithPaths]
          exact (mem_nodeListWithPaths p (nodeChildren v) 0 _).mpr
            ⟨i, c, hj, hn, by simp⟩
        · rw [collectAnc]
          apply List.mem_append_right
          rw [if_neg (by simp [hcd])]
          have hsize : dvSize c ≤ n := by
            have h1 := dvSize_getElem_le (nodeChildren v) i c hj
            have h2 := dvSizeList_children_lt v
            omega
          exact (ih c hsize (p ++ [i]) _).mpr ⟨q2, d, hdesc2, hrow, hcond, by simp⟩

/-- Membership characterization of the descendant search seeded with a
    node's children: exactly the `AncestorDisabled` operations for the
    reachable non-Row descendants satisfying the attribute condition. -/
theorem mem_seed (disable : Bool) (p : List Nat) (v : DV) (op : DPatchOp) :
    op ∈ collectStack disable (nodeChildrenWithPaths p v).reverse ↔
      ∃ q d, Desc v q d ∧ nodeName d ≠ "Row" ∧ ancCond disable d = true ∧
        op = ancOp disable (p ++ q) :=
  mem_seed_aux disable (dvSize v) v le_rfl p op

theorem mem_rowChildOps (disable : Bool) (p : List Nat) (l : List DV) :
    ∀ (i : Nat) (op : DPatchOp),
      (op ∈ rowChildOps disable p i l ↔
        ∃ j c, l[j]? = some c ∧ isNode c = true ∧ nodeName c ≠ "Row" ∧
          rowCond disable c = true ∧ op = rowOp disable (p ++ [i + j])) := by
  induction l with
  | nil => simp [rowChildOps]
  | cons c cs ih =>
    intro i op
    by_cases hc : isNode c ∧ nodeName c ≠ "Row" ∧ rowCond disable c = true
    · simp only [rowChildOps]
      rw [if_pos hc]
      simp only [List.mem_append, List.mem_singleton, ih]
      constructor
      · rintro (rfl | ⟨j, d, hj, hn, hr, hcnd, rfl⟩)
        · exact ⟨0, c, by simp, hc.1, hc.2.1, hc.2.2, by simp⟩
        · refine ⟨j + 1, d, by simpa using hj, hn, hr, hcnd, ?_⟩
          have : i + 1 + j = i + (j + 1) := by omega
          rw [← this]
      · rintro ⟨j, d, hj, hn, hr, hcnd, rfl⟩
        cases j with
        | zero =>
          simp only [List.getElem?_cons_zero, Option.some.injEq] at hj
          subst hj
          left
          simp
        | succ j =>
          right
          refine ⟨j, d, by simpa using hj, hn, hr, hcnd, ?_⟩
          have : i + (j + 1) = i + 1 + j := by omega
          rw [this]
    · simp only [rowChildOps]
      rw [if_neg hc]
      simp only [List.nil_append, ih]
      constructor
      · rintro ⟨j, d, hj, hn, hr, hcnd, rfl⟩
        refine ⟨j + 1, d, by simpa using hj, hn, hr, hcnd, ?_⟩
        have : i + 1 + j = i + (j + 1) := by omega
        rw [← this]
      · rintro ⟨j, d, hj, hn, hr, hcnd, rfl⟩
        cases j with
        | zero =>
          simp only [List.getElem?_cons_zero, Option.some.injEq] at hj
          subst hj
          exact absurd ⟨hn, hr, hcnd⟩ hc
        | succ j =>
          refine ⟨j, d, by simpa using hj, hn, hr, hcnd, ?_⟩
          have : i + (j + 1) = i + 1 + j := by omega
          rw [this]

theorem mem_rowGrandchildren (p : List Nat) (l : List DV) :
    ∀ (i : Nat) (e : List Nat × DV),
      (e ∈ rowGrandchildren p i l ↔
        ∃ j c, l[j]? = some c ∧ isNode c = true ∧
          e ∈ nodeChildrenWithPaths (p ++ [i + j]) c) := by
  induction l with
  | nil => simp [rowGrandchildren]
  | cons c cs ih =>
    intro i e
    by_cases hc : isNode c = true
    · simp only [rowGrandchildren, hc, if_pos, List.mem_append, ih]
      constructor
      · rintro (h | ⟨j, d, hj, hn, h⟩)
        · exact ⟨0, c, by simp, hc, by simpa using h⟩
        · refine ⟨j + 1, d, by simpa using hj, hn, ?_⟩
          have : i + 1 + j = i + (j + 1) := by omega
          rw [← this]
          exact h
      · rintro ⟨j, d, hj, hn, h⟩
        cases j with
        | zero =>
          simp only [List.getElem?_cons_zero, Option.some.injEq] at hj
          subst hj
          left
          simpa using h
        | succ j =>
          right
          refine ⟨j, d, by simpa using hj, hn, ?_⟩
          have : i + 1 + j = i + (j + 1) := by omega
          rw [this]
          exact h
    · simp only [rowGrandchildren, hc, Bool.false_eq_true, if_false, List.nil_append, ih]
      rw [Bool.not_eq_true] at hc
      constructor
      · rintro ⟨j, d, hj, hn, h⟩
        refine ⟨j + 1, d, by simpa using hj, hn, ?_⟩
        have : i + 1 + j = i + (j + 1) := by omega
        rw [← this]
        exact h
      · rintro ⟨j, d, hj, hn, h⟩
        cases j with
        | zero =>
          simp only [List.getElem?_cons_zero, Option.some.injEq] at hj
          subst hj
          rw [hc] at hn
          exact absurd hn (by simp)
        | succ j =>
          refine ⟨j, d, by simpa using hj, hn, ?_⟩
          have : i + (j + 1) = i + 1 + j := by omega
          rw [← this]
          exact h

/-- The Row-target descendant search: `AncestorDisabled` operations for
    exactly the reachable descendants of the row's node children. -/
theorem mem_rowSeed (disable : Bool) (p : List Nat) (l : List DV) (op : DPatchOp) :
    op ∈ collectStack disable (rowGrandchildren p 0 l).reverse ↔
      ∃ j c, l[j]? = some c ∧ isNode c = true ∧
        ∃ q d, Desc c q d ∧ nodeName d ≠ "Row" ∧ ancCond disable d = true ∧
          op = ancOp disable ((p ++ [j]) ++ q) := by
  rw [mem_collectStack]
  constructor
  · rintro ⟨e, he, hop⟩
    rw [List.mem_reverse] at he
    obtain ⟨j, c, hj, hn, he2⟩ := (mem_rowGrandchildren p l 0 e).mp he
    simp only [Nat.zero_add] at he2
    have : op ∈ collectStack disable (nodeChildrenWithPaths (p ++ [j]) c).reverse := by
      rw [mem_collectStack]
      exact ⟨e, List.mem_reverse.mpr he2, hop⟩
    obtain ⟨q, d, hdesc, hrow, hcond, rfl⟩ := (mem_seed disable (p ++ [j]) c op).mp this
    exact ⟨j, c, hj, hn, q, d, hdesc, hrow, hcond, rfl⟩
  · rintro ⟨j, c, hj, hn, q, d, hdesc, hrow, hcond, rfl⟩
    have h2 : ancOp disable ((p ++ [j]) ++ q) ∈
        collectStack disable (nodeChildrenWithPaths (p ++ [j]) c).reverse :=
      (mem_seed disable (p ++ [j]) c _).mpr ⟨q, d, hdesc, hrow, hcond, rfl⟩
    rw [mem_collectStack] at h2
    obtain ⟨e, he, hop⟩ := h2
    refine ⟨e, ?_, hop⟩
    rw [List.mem_reverse]
    exact (mem_rowGrandchildren p l 0 e).mpr ⟨j, c, hj, hn, by
      simpa using List.mem_reverse.mp he⟩

theorem lookupAttr_replaceAll (attrs : List (String × DV)) (k : String) (val : DV)
    (h : ∃ e ∈ attrs, e.1 = k) :
    Gen.lookupAttr (attrs.map (fun e => if e.1 = k then (k, val) else e)) k = some val := by
  induction attrs with
  | nil => simp at h
  | cons x rest ih =>
    by_cases hx : x.1 = k
    · rw [List.map_cons, if_pos hx]
      simp [Gen.lookupAttr, List.find?]
    · rw [List.map_cons, if_neg hx]
      simp only [Gen.lookupAttr, List.find?]
      rw [show (decide (x.1 = k)) = false from by simp [hx]]
      simp only [List.mem_cons] at h
      rcases h with ⟨e, (rfl | he), hk⟩
      · exact absurd hk hx
      · exact ih ⟨e, he, hk⟩

theorem lookupAttr_replaceAll_ne (attrs : List (String × DV)) (k k' : String)
    (val : DV) (hne : k' ≠ k) :
    Gen.lookupAttr (attrs.map (fun e => if e.1 = k then (k, val) else e)) k' =
      Gen.lookupAttr attrs k' := by
  induction attrs with
  | nil => rfl
  | cons x rest ih =>
    by_cases hx : x.1 = k
    · rw [List.map_cons, if_pos hx]
      simp only [Gen.lookupAttr, List.find?]
      rw [show (decide (k = k')) = false from by
          simp only [decide_eq_false_iff_not]
          exact fun hq => hne hq.symm,
        show (decide (x.1 = k')) = false from by
          simp only [decide_eq_false_iff_not]
          rw [hx]
          exact fun hq => hne hq.symm]
      exact ih
    · rw [List.map_cons, if_neg hx]
      simp only [Gen.lookupAttr, List.find?]
      by_cases hx' : x.1 = k'
      · rw [show (decide (x.1 = k')) = true from by simp [hx']]
      · rw [show (decide (x.1 = k')) = false from by simp [hx']]
        exact ih

theorem lookupAttr_appendNew (attrs : List (String × DV)) (k : String) (val : DV)
    (h : ∀ e ∈ attrs, ¬e.1 = k) :
    Gen.lookupAttr (attrs ++ [(k, val)]) k = some val := by
  induction attrs with
  | nil => simp [Gen.lookupAttr, List.find?]
  | cons x rest ih =>
    simp only [List.cons_append, Gen.lookupAttr, List.find?]
    rw [show (decide (x.1 = k)) = false from by simp [h x (by simp)]]
    exact ih (fun e he => h e (by simp [he]))

theorem lookupAttr_appendNew_ne (attrs : List (String × DV)) (k k' : String)
    (val : DV) (hne : k' ≠ k) :
    Gen.lookupAttr (attrs ++ [(k, val)]) k' = Gen.lookupAttr attrs k' := by
  induction attrs with
  | nil =>
    simp only [List.nil_append, Gen.lookupAttr, List.find?]
    rw [show (decide (k = k')) = false from by
      simp only [decide_eq_false_iff_not]
      exact fun hq => hne hq.symm]
  | cons x rest ih =>
    simp only [List.cons_append, Gen.lookupAttr, List.find?]
    by_cases hx' : x.1 = k'
    · rw [show (decide (x.1 = k')) = true from by simp [hx']]
    · rw [show (decide (x.1 = k')) = false from by simp [hx']]
      exact ih

theorem lookupAttr_setMember_self (attrs : List (String × DV)) (k : String) (val : DV) :
    Gen.lookupAttr (setMember attrs k val) k = some val := by
  rw [setMember]
  by_cases h : attrs.any (fun e => e.1 = k) = true
  · rw [if_pos h]
    apply lookupAttr_replaceAll
    simpa using h
  · rw [if_neg h]
    apply lookupAttr_appendNew
    intro e he hk
    simp only [List.any_eq_true, decide_eq_true_eq, not_exists] at h
    exact (h e) ⟨he, hk⟩

theorem lookupAttr_setMember_ne (attrs : List (String × DV)) (k k' : String)
    (val : DV) (hne : k' ≠ k) :
    Gen.lookupAttr (setMember attrs k val) k' = Gen.lookupAttr attrs k' := by
  rw [setMember]
  by_cases h : attrs.any (fun e => e.1 = k) = true
  · rw [if_pos h]
    exact lookupAttr_replaceAll_ne attrs k k' val hne
  · rw [if_neg h]
    exact lookupAttr_appendNew_ne attrs k k' val hne

theorem lookupAttr_filter_self (attrs : List (String × DV)) (k : String) :
    Gen.lookupAttr (attrs.filter (fun e => ¬e.1 = k)) k = none := by
  induction attrs with
  | nil => simp [Gen.lookupAttr]
  | cons x rest ih =>
    by_cases hx : x.1 = k
    · rw [List.filter_cons, if_neg (by simp [hx])]
      exact ih
    · rw [List.filter_cons, if_pos (by simp [hx])]
      simp only [Gen.lookupAttr, List.find?]
      rw [show (decide (x.1 = k)) = false from by simp [hx]]
      exact ih

theorem lookupAttr_filter_ne (attrs : List (String × DV)) (k k' : String)
    (hne : k' ≠ k) :
    Gen.lookupAttr (attrs.filter (fun e => ¬e.1 = k)) k' = Gen.lookupAttr attrs k' := by
  induction attrs with
  | nil => simp [Gen.lookupAttr]
  | cons x rest ih =>
    by_cases hx : x.1 = k
    · rw [List.filter_cons, if_neg (by simp [hx])]
      simp only [Gen.lookupAttr, List.find?]
      rw [show (decide (x.1 = k')) = false from by
        simp only [decide_eq_false_iff_not]
        rw [hx]
        exact fun hq => hne hq.symm]
      exact ih
    · rw [List.filter_cons, if_pos (by simp [hx])]
      simp only [Gen.lookupAttr, List.find?]
      by_cases hx' : x.1 = k'
      · rw [show (decide (x.1 = k')) = true from by simp [hx']]
      · rw [show (decide (x.1 = k')) = false from by simp [hx']]
        exact ih

theorem setAttrNode_proj (v : DV) (k : String) :
    nodeName (setAttrNode v k) = nodeName v ∧ isNode (setAttrNode v k) = isNode v ∧
      nodeChildren (setAttrNode v k) = nodeChildren v := by
  cases v <;> simp [setAttrNode, nodeName, isNode, nodeChildren]

theorem removeAttrNode_proj (v : DV) (k : String) :
    nodeName (removeAttrNode v k) = nodeName v ∧
      isNode (removeAttrNode v k) = isNode v ∧
      nodeChildren (removeAttrNode v k) = nodeChildren v := by
  cases v <;> simp [removeAttrNode, nodeName, isNode, nodeChildren]

theorem attrTruthy_setAttrNode_self (v : DV) (k : String) :
    attrTruthy (setAttrNode v k) k = isNode v := by
  cases v with
  | node n attrs cs =>
    simp [setAttrNode, attrTruthy, nodeAttrs, isNode, lookupAttr_setMember_self]
  | boolV b => simp [setAttrNode, attrTruthy, nodeAttrs, isNode, Gen.lookupAttr]
  | intV n => simp [setAttrNode, attrTruthy, nodeAttrs, isNode, Gen.lookupAttr]
  | strV s => simp [setAttrNode, attrTruthy, nodeAttrs, isNode, Gen.lookupAttr]
  | nullV => simp [setAttrNode, attrTruthy, nodeAttrs, isNode, Gen.lookupAttr]

theorem attrTruthy_setAttrNode_ne (v : DV) (k k' : String) (hne : k' ≠ k) :
    attrTruthy (setAttrNode v k) k' = attrTruthy v k' := by
  cases v with
  | node n attrs cs =>
    simp [setAttrNode, attrTruthy, nodeAttrs, lookupAttr_setMember_ne attrs k k' _ hne]
  | boolV b => rfl
  | intV n => rfl
  | strV s => rfl
  | nullV => rfl

theorem attrTruthy_removeAttrNode_self (v : DV) (k : String) :
    attrTruthy (removeAttrNode v k) k = false := by
  cases v with
  | node n attrs cs =>
    simp only [removeAttrNode, attrTruthy, nodeAttrs]
    rw [lookupAttr_filter_self]
  | boolV b => rfl
  | intV n => rfl
  | strV s => rfl
  | nullV => rfl

theorem attrTruthy_removeAttrNode_ne (v : DV) (k k' : String) (hne : k' ≠ k) :
    attrTruthy (removeAttrNode v k) k' = attrTruthy v k' := by
  cases v with
  | node n attrs cs =>
    simp only [removeAttrNode, attrTruthy, nodeAttrs]
    rw [lookupAttr_filter_ne attrs k k' hne]
  | boolV b => rfl
  | intV n => rfl
  | strV s => rfl
  | nullV => rfl

theorem navigate_single (v : DV) (i : Nat) : navigate v [i] = (nodeChildren v)[i]? := by
  cases h : (nodeChildren v)[i]? <;> simp [navigate, h]

theorem navigate_append (r1 : List Nat) :
    ∀ (t : DV) (r2 : List Nat),
      navigate t (r1 ++ r2) = (navigate t r1).bind (fun w => navigate w r2) := by
  induction r1 with
  | nil =>
    intro t r2
    simp [navigate]
  | cons i r1 ih =>
    intro t r2
    rw [List.cons_append]
    cases h : (nodeChildren t)[i]? with
    | none => simp [navigate, h]
    | some c => simp [navigate, h, ih]

theorem navigate_append_some (t c : DV) (base r : List Nat)
    (h : navigate t base = some c) : navigate t (base ++ r) = navigate c r := by
  rw [navigate_append, h]
  rfl

/-- Whether the value at a path exists and is a node. -/
def isNodeAt (t : DV) (r : List Nat) : Bool :=
  match navigate t r with
  | some w => isNode w
  | none => false

/-- Whether the attribute at a path is present and truthy. -/
def truthyAt (t : DV) (r : List Nat) (a : String) : Bool :=
  match navigate t r with
  | some w => attrTruthy w a
  | none => false

theorem truthyAt_navigate (t c : DV) (base r : List Nat) (a : String)
    (h : navigate t base = some c) : truthyAt t (base ++ r) a = truthyAt c r a := by
  unfold truthyAt
  rw [navigate_append_some t c base r h]

theorem attrTruthy_eq_of_attrs (v w : DV) (a : String)
    (h : nodeAttrs v = nodeAttrs w) : attrTruthy v a = attrTruthy w a := by
  unfold attrTruthy
  rw [h]

theorem truthyAt_congr_attrs (t1 t2 : DV) (r : List Nat) (a : String)
    (h : (navigate t1 r).map nodeAttrs = (navigate t2 r).map nodeAttrs) :
    truthyAt t1 r a = truthyAt t2 r a := by
  unfold truthyAt
  cases h1 : navigate t1 r with
  | none =>
    cases h2 : navigate t2 r with
    | none => rfl
    | some w2 =>
      rw [h1, h2] at h
      simp at h
  | some w1 =>
    cases h2 : navigate t2 r with
    | none =>
      rw [h1, h2] at h
      simp at h
    | some w2 =>
      rw [h1, h2] at h
      simp only [Option.map_some'] at h
      exact attrTruthy_eq_of_attrs w1 w2 a (Option.some.inj h)

/-- A `Dom` patch operation at an attribute path only rewrites the attribute
    map of the node at the operation path: at every path the name, nodehood
    and existence of the value are untouched, and at every other path so is
    the attribute map. -/
theorem navigate_updateAt_proj (f : DV → DV)
    (hf : ∀ w, nodeName (f w) = nodeName w ∧ isNode (f w) = isNode w ∧
      nodeChildren (f w) = nodeChildren w) :
    ∀ (rp : List Nat) (t : DV) (r : List Nat),
      ((navigate (updateAt t rp f) r).map nodeName = (navigate t r).map nodeName)
      ∧ ((navigate (updateAt t rp f) r).map isNode = (navigate t r).map isNode)
      ∧ ((navigate (updateAt t rp f) r).isSome = (navigate t r).isSome)
      ∧ (rp ≠ r →
          (navigate (updateAt t rp f) r).map nodeAttrs = (navigate t r).map nodeAttrs) := by
  intro rp
  induction rp with
  | nil =>
    intro t r
    cases r with
    | nil =>
      refine ⟨?_, ?_, rfl, fun h => absurd rfl h⟩
      · simp [updateAt, navigate, (hf t).1]
      · simp [updateAt, navigate, (hf t).2.1]
    | cons i r' =>
      have key : navigate (updateAt t [] f) (i :: r') = navigate t (i :: r') := by
        show navigate (f t) (i :: r') = navigate t (i :: r')
        simp only [navigate]
        rw [(hf t).2.2]
      rw [key]
      exact ⟨rfl, rfl, rfl, fun _ => rfl⟩
  | cons j rp' ih =>
    intro t r
    cases t with
    | node n attrs cs =>
      cases hj : cs[j]? with
      | none =>
        have key : updateAt (Gen.DomVal.node n attrs cs) (j :: rp') f =
            Gen.DomVal.node n attrs cs := by
          simp [updateAt, hj]
        rw [key]
        exact ⟨rfl, rfl, rfl, fun _ => rfl⟩
      | some c =>
        have hlt : j < cs.length := by
          by_contra hc
          rw [List.getElem?_eq_none (by omega)] at hj
          exact Option.noConfusion hj
        have key : updateAt (Gen.DomVal.node n attrs cs) (j :: rp') f =
            Gen.DomVal.node n attrs (cs.set j (updateAt c rp' f)) := by
          simp [updateAt, hj]
        rw [key]
        cases r with
        | nil => exact ⟨rfl, rfl, rfl, fun _ => rfl⟩
        | cons i r' =>
          by_cases hij : i = j
          · subst hij
            have hset : (cs.set i (updateAt c rp' f))[i]? = some (updateAt c rp' f) :=
              List.getElem?_set_eq_of_lt _ hlt
            have hnav1 : navigate
                (Gen.DomVal.node n attrs (cs.set i (updateAt c rp' f))) (i :: r')
                = navigate (updateAt c rp' f) r' := by
              simp [navigate, nodeChildren, hset]
            have hnav2 : navigate (Gen.DomVal.node n attrs cs) (i :: r')
                = navigate c r' := by
              simp [navigate, nodeChildren, hj]
            rw [hnav1, hnav2]
            have h4 := ih c r'
            refine ⟨h4.1, h4.2.1, h4.2.2.1, fun hne => h4.2.2.2 ?_⟩
            intro hc
            exact hne (by rw [hc])
          · have hset : (cs.set j (updateAt c rp' f))[i]? = cs[i]? :=
              List.getElem?_set_ne (fun h => hij h.symm)
            have hnav1 : navigate
                (Gen.DomVal.node n attrs (cs.set j (updateAt c rp' f))) (i :: r')
                = navigate (Gen.DomVal.node n attrs cs) (i :: r') := by
              simp only [navigate, nodeChildren, hset]
            rw [hnav1]
            exact ⟨rfl, rfl, rfl, fun _ => rfl⟩
    | boolV b =>
      have key : updateAt (Gen.DomVal.boolV b) (j :: rp') f = Gen.DomVal.boolV b := by
        simp [updateAt]
      rw [key]
      exact ⟨rfl, rfl, rfl, fun _ => rfl⟩
    | intV m =>
      have key : updateAt (Gen.DomVal.intV m) (j :: rp') f = Gen.DomVal.intV m := by
        simp [updateAt]
      rw [key]
      exact ⟨rfl, rfl, rfl, fun _ => rfl⟩
    | strV s =>
      have key : updateAt (Gen.DomVal.strV s) (j :: rp') f = Gen.DomVal.strV s := by
        simp [updateAt]
      rw [key]
      exact ⟨rfl, rfl, rfl, fun _ => rfl⟩
    | nullV =>
      have key : updateAt Gen.DomVal.nullV (j :: rp') f = Gen.DomVal.nullV := by
        simp [updateAt]
      rw [key]
      exact ⟨rfl, rfl, rfl, fun _ => rfl⟩

/-- At the operation path itself the modifier is applied to the node that
    was there. -/
theorem navigate_updateAt_self (f : DV → DV) :
    ∀ (rp : List Nat) (t w : DV), navigate t rp = some w →
      navigate (updateAt t rp f) rp = some (f w) := by
  intro rp
  induction rp with
  | nil =>
    intro t w h
    simp only [navigate, Option.some.injEq] at h
    subst h
    simp [updateAt, navigate]
  | cons j rp' ih =>
    intro t w h
    cases t with
    | node n attrs cs =>
      simp only [navigate, nodeChildren] at h
      cases hj : cs[j]? with
      | none =>
        rw [hj] at h
        exact Option.noConfusion h
      | some c =>
        rw [hj] at h
        have hlt : j < cs.length := by
          by_contra hc
          rw [List.getElem?_eq_none (by omega)] at hj
          exact Option.noConfusion hj
        have key : updateAt (Gen.DomVal.node n attrs cs) (j :: rp') f =
            Gen.DomVal.node n attrs (cs.set j (updateAt c rp' f)) := by
          simp [updateAt, hj]
        rw [key]
        simp only [navigate, nodeChildren]
        rw [List.getElem?_set_eq_of_lt _ hlt]
        exact ih c w h
    | boolV b => simp [navigate, nodeChildren] at h
    | intV m => simp [navigate, nodeChildren] at h
    | strV s => simp [navigate, nodeChildren] at h
    | nullV => simp [navigate, nodeChildren] at h

theorem truthyAt_some (t w : DV) (r : List Nat) (a : String)
    (h : navigate t r = some w) : truthyAt t r a = attrTruthy w a := by
  unfold truthyAt
  rw [h]

theorem applyOp_proj (t : DV) (op : DPatchOp) (r : List Nat) :
    ((navigate (applyOp t op) r).map nodeName = (navigate t r).map nodeName)
    ∧ ((navigate (applyOp t op) r).map isNode = (navigate t r).map isNode)
    ∧ ((navigate (applyOp t op) r).isSome = (navigate t r).isSome) := by
  cases op with
  | addOp p a =>
    simp only [applyOp]
    have h := navigate_updateAt_proj (fun w => setAttrNode w a)
      (fun w => setAttrNode_proj w a) p t r
    exact ⟨h.1, h.2.1, h.2.2.1⟩
  | removeOp p a =>
    simp only [applyOp]
    have h := navigate_updateAt_proj (fun w => removeAttrNode w a)
      (fun w => removeAttrNode_proj w a) p t r
    exact ⟨h.1, h.2.1, h.2.2.1⟩

theorem isNodeAt_congr (t1 t2 : DV) (r : List Nat)
    (h : (navigate t1 r).map isNode = (navigate t2 r).map isNode) :
    isNodeAt t1 r = isNodeAt t2 r := by
  unfold isNodeAt
  cases h1 : navigate t1 r with
  | none =>
    cases h2 : navigate t2 r with
    | none => rfl
    | some w2 => rw [h1, h2] at h; simp at h
  | some w1 =>
    cases h2 : navigate t2 r with
    | none => rw [h1, h2] at h; simp at h
    | some w2 =>
      rw [h1, h2] at h
      simpa using h

theorem isNodeAt_applyOp (t : DV) (op : DPatchOp) (r : List Nat) :
    isNodeAt (applyOp t op) r = isNodeAt t r :=
  isNodeAt_congr _ t r (applyOp_proj t op r).2.1

theorem truthyAt_applyOp_add_self (t : DV) (p : List Nat) (a : String) :
    truthyAt (applyOp t (DPatchOp.addOp p a)) p a = isNodeAt t p := by
  cases h : navigate t p with
  | none =>
    have hs := (applyOp_proj t (DPatchOp.addOp p a) p).2.2
    rw [h] at hs
    unfold truthyAt isNodeAt
    rw [h]
    cases h1 : navigate (applyOp t (DPatchOp.addOp p a)) p with
    | none => rfl
    | some w => rw [h1] at hs; simp at hs
  | some w =>
    have h2 : navigate (applyOp t (DPatchOp.addOp p a)) p = some (setAttrNode w a) := by
      show navigate (updateAt t p (fun w' => setAttrNode w' a)) p = _
      exact navigate_updateAt_self _ p t w h
    unfold isNodeAt
    rw [h, truthyAt_some _ _ p a h2]
    exact attrTruthy_setAttrNode_self w a

theorem truthyAt_applyOp_add_ne (t : DV) (p r : List Nat) (a a' : String)
    (h : ¬(p = r ∧ a = a')) :
    truthyAt (applyOp t (DPatchOp.addOp p a)) r a' = truthyAt t r a' := by
  by_cases hp : p = r
  · subst hp
    have ha : a ≠ a' := fun hc => h ⟨rfl, hc⟩
    cases hnav : navigate t p with
    | none =>
      have hs := (applyOp_proj t (DPatchOp.addOp p a) p).2.2
      rw [hnav] at hs
      unfold truthyAt
      rw [hnav]
      cases h1 : navigate (applyOp t (DPatchOp.addOp p a)) p with
      | none => rfl
      | some w => rw [h1] at hs; simp at hs
    | some w =>
      have h2 : navigate (applyOp t (DPatchOp.addOp p a)) p = some (setAttrNode w a) := by
        show navigate (updateAt t p (fun w' => setAttrNode w' a)) p = _
        exact navigate_updateAt_self _ p t w hnav
      rw [truthyAt_some _ _ p a' h2, truthyAt_some t w p a' hnav]
      exact attrTruthy_setAttrNode_ne w a a' (fun hc => ha hc.symm)
  · have h4 := (navigate_updateAt_proj (fun w => setAttrNode w a)
      (fun w => setAttrNode_proj w a) p t r).2.2.2 hp
    exact truthyAt_congr_attrs _ t r a' h4

theorem truthyAt_applyOp_remove_self (t : DV) (p : List Nat) (a : String) :
    truthyAt (applyOp t (DPatchOp.removeOp p a)) p a = false := by
  cases h : navigate t p with
  | none =>
    have hs := (applyOp_proj t (DPatchOp.removeOp p a) p).2.2
    rw [h] at hs
    unfold truthyAt
    cases h1 : navigate (applyOp t (DPatchOp.removeOp p a)) p with
    | none => rfl
    | some w => rw [h1] at hs; simp at hs
  | some w =>
    have h2 : navigate (applyOp t (DPatchOp.removeOp p a)) p =
        some (removeAttrNode w a) := by
      show navigate (updateAt t p (fun w' => removeAttrNode w' a)) p = _
      exact navigate_updateAt_self _ p t w h
    rw [truthyAt_some _ _ p a h2]
    exact attrTruthy_removeAttrNode_self w a

theorem truthyAt_applyOp_remove_ne (t : DV) (p r : List Nat) (a a' : String)
    (h : ¬(p = r ∧ a = a')) :
    truthyAt (applyOp t (DPatchOp.removeOp p a)) r a' = truthyAt t r a' := by
  by_cases hp : p = r
  · subst hp
    have ha : a ≠ a' := fun hc => h ⟨rfl, hc⟩
    cases hnav : navigate t p with
    | none =>
      have hs := (applyOp_proj t (DPatchOp.removeOp p a) p).2.2
      rw [hnav] at hs
      unfold truthyAt
      rw [hnav]
      cases h1 : navigate (applyOp t (DPatchOp.removeOp p a)) p with
      | none => rfl
      | some w => rw [h1] at hs; simp at hs
    | some w =>
      have h2 : navigate (applyOp t (DPatchOp.removeOp p a)) p =
          some (removeAttrNode w a) := by
        show navigate (updateAt t p (fun w' => removeAttrNode w' a)) p = _
        exact navigate_updateAt_self _ p t w hnav
      rw [truthyAt_some _ _ p a' h2, truthyAt_some t w p a' hnav]
      exact attrTruthy_removeAttrNode_ne w a a' (fun hc => ha hc.symm)
  · have h4 := (navigate_updateAt_proj (fun w => removeAttrNode w a)
      (fun w => removeAttrNode_proj w a) p t r).2.2.2 hp
    exact truthyAt_congr_attrs _ t r a' h4

/-- The operation the handler emits at a path and attribute: an add when
    disabling, a remove when enabling. -/
def opFor (b : Bool) (p : List Nat) (a : String) : DPatchOp :=
  if b then DPatchOp.addOp p a else DPatchOp.removeOp p a

theorem rowOp_eq_opFor (b : Bool) (p : List Nat) :
    rowOp b p = opFor b p "Disabled" := by
  cases b <;> rfl

theorem ancOp_eq_opFor (b : Bool) (p : List Nat) :
    ancOp b p = opFor b p "AncestorDisabled" := by
  cases b <;> rfl

theorem opFor_inj (b : Bool) (p p' : List Nat) (a a' : String) :
    opFor b p a = opFor b p' a' ↔ p = p' ∧ a = a' := by
  cases b <;> simp [opFor]

theorem rowCond_eq (b : Bool) (v : DV) :
    rowCond b v = true ↔ attrTruthy v "Disabled" = !b := by
  cases b <;> simp [rowCond]

theorem ancCond_eq (b : Bool) (v : DV) :
    ancCond b v = true ↔ attrTruthy v "AncestorDisabled" = !b := by
  cases b <;> simp [ancCond]

theorem truthyAt_applyOp_opFor_self (b : Bool) (t : DV) (p : List Nat) (a : String) :
    truthyAt (applyOp t (opFor b p a)) p a = (b && isNodeAt t p) := by
  cases b
  · simpa [opFor] using truthyAt_applyOp_remove_self t p a
  · simpa [opFor] using truthyAt_applyOp_add_self t p a

theorem truthyAt_applyOp_opFor_ne (b : Bool) (t : DV) (p r : List Nat) (a a' : String)
    (h : ¬(p = r ∧ a = a')) :
    truthyAt (applyOp t (opFor b p a)) r a' = truthyAt t r a' := by
  cases b
  · simpa [opFor] using truthyAt_applyOp_remove_ne t p r a a' h
  · simpa [opFor] using truthyAt_applyOp_add_ne t p r a a' h

theorem applyPatch_cons (t : DV) (op : DPatchOp) (P : List DPatchOp) :
    applyPatch t (op :: P) = applyPatch (applyOp t op) P := rfl

theorem applyPatch_proj (P : List DPatchOp) :
    ∀ (t : DV) (r : List Nat),
      ((navigate (applyPatch t P) r).map nodeName = (navigate t r).map nodeName)
      ∧ ((navigate (applyPatch t P) r).map isNode = (navigate t r).map isNode)
      ∧ ((navigate (applyPatch t P) r).isSome = (navigate t r).isSome) := by
  induction P with
  | nil => intro t r; exact ⟨rfl, rfl, rfl⟩
  | cons op P ih =>
    intro t r
    rw [applyPatch_cons]
    have h1 := ih (applyOp t op) r
    have h2 := applyOp_proj t op r
    exact ⟨h1.1.trans h2.1, h1.2.1.trans h2.2.1, h1.2.2.trans h2.2.2⟩

/-- Applying a patch in which every operation is of the handler's uniform
    kind (all adds when disabling, all removes when enabling): the truthy
    state at a path and attribute is forced when the patch holds the
    operation for it and untouched otherwise. -/
theorem truthyAt_applyPatch_uniform (b : Bool) (P : List DPatchOp) :
    ∀ (t : DV) (r : List Nat) (a : String),
      (∀ op ∈ P, ∃ p' a', op = opFor b p' a') →
      truthyAt (applyPatch t P) r a =
        (if opFor b r a ∈ P then b && isNodeAt t r else truthyAt t r a) := by
  induction P with
  | nil =>
    intro t r a _
    simp [applyPatch]
  | cons op P ih =>
    intro t r a hU
    obtain ⟨p', a', rfl⟩ := hU _ (List.mem_cons_self _ _)
    rw [applyPatch_cons, ih _ _ _ (fun op hop => hU op (List.mem_cons_of_mem _ hop))]
    by_cases hsame : p' = r ∧ a' = a
    · obtain ⟨rfl, rfl⟩ := hsame
      rw [isNodeAt_applyOp, truthyAt_applyOp_opFor_self]
      rw [if_pos (List.mem_cons_self _ _)]
      by_cases h2 : opFor b p' a' ∈ P
      · rw [if_pos h2]
      · rw [if_neg h2]
    · rw [isNodeAt_applyOp, truthyAt_applyOp_opFor_ne b t p' r a' a hsame]
      have hne : opFor b r a ≠ opFor b p' a' := by
        intro hc
        have h3 := (opFor_inj b r p' a a').mp hc
        exact hsame ⟨h3.1.symm, h3.2.symm⟩
      by_cases h2 : opFor b r a ∈ P
      · rw [if_pos h2, if_pos (List.mem_cons_of_mem _ h2)]
      · rw [if_neg h2, if_neg (by simp [List.mem_cons, hne, h2])]

/-- A reachable descendant sits at the corresponding path and is a node. -/
theorem desc_navigate {v : DV} {q : List Nat} {d : DV} (h : Desc v q d) :
    navigate v q = some d ∧ isNode d = true := by
  induction h with
  | child i c hj hn =>
    exact ⟨by rw [navigate_single]; exact hj, hn⟩
  | @step v i c q d hj hn hdis hdesc ih =>
    refine ⟨?_, ih.2⟩
    have h1 : navigate v (i :: q) = navigate c q := by
      simp only [navigate]
      rw [hj]
    rw [h1]
    exact ih.1

/-- Reachability transfers between two trees that agree pointwise on node
    names, nodehood, and on the `Disabled` attribute strictly below the
    root. -/
theorem desc_transfer :
    ∀ {c' : DV} {q : List Nat} {d' : DV}, Desc c' q d' → ∀ c : DV,
      (∀ r, (navigate c' r).map nodeName = (navigate c r).map nodeName) →
      (∀ r, (navigate c' r).map isNode = (navigate c r).map isNode) →
      (∀ r, r ≠ [] → truthyAt c' r "Disabled" = truthyAt c r "Disabled") →
      ∃ d, Desc c q d ∧ navigate c q = some d ∧ nodeName d = nodeName d' := by
  intro c' q d' h
  induction h with
  | @child v i cc hj hn =>
    intro c hnm hin _
    have h1 : navigate v [i] = some cc := by rw [navigate_single]; exact hj
    have h2 := hnm [i]
    have h3 := hin [i]
    rw [h1] at h2 h3
    cases h4 : navigate c [i] with
    | none => rw [h4] at h3; simp at h3
    | some d =>
      rw [h4] at h2 h3
      simp only [Option.map_some', Option.some.injEq] at h2 h3
      have hjc : (nodeChildren c)[i]? = some d := by rw [← navigate_single]; exact h4
      have hnd : isNode d = true := by rw [← h3]; exact hn
      exact ⟨d, Desc.child i d hjc hnd, rfl, h2.symm⟩
  | @step v i cc q2 dd hj hn hdd hdesc ih =>
    intro c hnm hin hdis
    have h1 : navigate v [i] = some cc := by rw [navigate_single]; exact hj
    have h2 := hnm [i]
    have h3 := hin [i]
    rw [h1] at h2 h3
    cases h4 : navigate c [i] with
    | none => rw [h4] at h3; simp at h3
    | some c2 =>
      rw [h4] at h2 h3
      simp only [Option.map_some', Option.some.injEq] at h2 h3
      have hjc : (nodeChildren c)[i]? = some c2 := by rw [← navigate_single]; exact h4
      have hnc2 : isNode c2 = true := by rw [← h3]; exact hn
      have hdisc2 : attrTruthy c2 "Disabled" = false := by
        have h5 := hdis [i] (by simp)
        rw [truthyAt_some v cc [i] _ h1, truthyAt_some c c2 [i] _ h4] at h5
        rw [← h5]
        exact hdd
      have hnm2 : ∀ r, (navigate cc r).map nodeName = (navigate c2 r).map nodeName := by
        intro r
        rw [← navigate_append_some v cc [i] r h1, ← navigate_append_some c c2 [i] r h4]
        exact hnm ([i] ++ r)
      have hin2 : ∀ r, (navigate cc r).map isNode = (navigate c2 r).map isNode := by
        intro r
        rw [← navigate_append_some v cc [i] r h1, ← navigate_append_some c c2 [i] r h4]
        exact hin ([i] ++ r)
      have hdis2 : ∀ r, r ≠ [] → truthyAt cc r "Disabled" = truthyAt c2 r "Disabled" := by
        intro r _
        rw [← truthyAt_navigate v cc [i] r _ h1, ← truthyAt_navigate c c2 [i] r _ h4]
        exact hdis ([i] ++ r) (by simp)
      obtain ⟨d, hdescd, hnavd, hnamed⟩ := ih c2 hnm2 hin2 hdis2
      refine ⟨d, Desc.step i c2 q2 d hjc hnc2 hdisc2 hdescd, ?_, hnamed⟩
      have h6 : navigate c (i :: q2) = navigate c2 q2 := by
        simp only [navigate]
        rw [hjc]
      rw [h6]
      exact hnavd

theorem handleSetNodeDisabled_eq (t T : DV) (b : Bool) (tp : List Nat)
    (hT : navigate t tp = some T) :
    handleSetNodeDisabled t b tp =
      (if !isNode T then []
       else if nodeName T = "Row" then
         rowChildOps b tp 0 (nodeChildren T)
           ++ ancLoop b (rowGrandchildren tp 0 (nodeChildren T)).reverse
       else
         rowOp b tp :: ancLoop b (nodeChildrenWithPaths tp T).reverse) := by
  unfold handleSetNodeDisabled
  rw [hT]

/-- A valid non-Row target always receives its own `Disabled` operation,
    followed by the descendant search seeded with its children. -/
theorem handleSetNodeDisabled_nonRow (t T : DV) (b : Bool) (tp : List Nat)
    (hT : navigate t tp = some T) (hnode : isNode T = true)
    (hrow : nodeName T ≠ "Row") :
    handleSetNodeDisabled t b tp =
      rowOp b tp :: ancLoop b (nodeChildrenWithPaths tp T).reverse := by
  rw [handleSetNodeDisabled_eq t T b tp hT, hnode]
  simp only [Bool.not_true, Bool.false_eq_true, if_false]
  rw [if_neg hrow]

/-- A valid Row target receives per-child `Disabled` operations followed by
    the descendant search seeded with all grandchildren. -/
theorem handleSetNodeDisabled_row (t T : DV) (b : Bool) (tp : List Nat)
    (hT : navigate t tp = some T) (hnode : isNode T = true)
    (hrow : nodeName T = "Row") :
    handleSetNodeDisabled t b tp =
      rowChildOps b tp 0 (nodeChildren T)
        ++ ancLoop b (rowGrandchildren tp 0 (nodeChildren T)).reverse := by
  rw [handleSetNodeDisabled_eq t T b tp hT, hnode]
  simp only [Bool.not_true, Bool.false_eq_true, if_false]
  rw [if_pos hrow]

theorem mem_handleSetNodeDisabled_nonRow (t T : DV) (b : Bool) (tp : List Nat)
    (hT : navigate t tp = some T) (hnode : isNode T = true)
    (hrow : nodeName T ≠ "Row") (op : DPatchOp) :
    op ∈ handleSetNodeDisabled t b tp ↔
      (op = rowOp b tp ∨
        ∃ q d, Desc T q d ∧ nodeName d ≠ "Row" ∧ ancCond b d = true ∧
          op = ancOp b (tp ++ q)) := by
  rw [handleSetNodeDisabled_nonRow t T b tp hT hnode hrow, List.mem_cons,
    ancLoop_eq_collect, mem_seed]

theorem mem_handleSetNodeDisabled_row (t T : DV) (b : Bool) (tp : List Nat)
    (hT : navigate t tp = some T) (hnode : isNode T = true)
    (hrow : nodeName T = "Row") (op : DPatchOp) :
    op ∈ handleSetNodeDisabled t b tp ↔
      ((∃ j c, (nodeChildren T)[j]? = some c ∧ isNode c = true ∧
          nodeName c ≠ "Row" ∧ rowCond b c = true ∧ op = rowOp b (tp ++ [j]))
        ∨ ∃ j c, (nodeChildren T)[j]? = some c ∧ isNode c = true ∧
            ∃ q d, Desc c q d ∧ nodeName d ≠ "Row" ∧ ancCond b d = true ∧
              op = ancOp b ((tp ++ [j]) ++ q)) := by
  rw [handleSetNodeDisabled_row t T b tp hT hnode hrow, List.mem_append,
    ancLoop_eq_collect, mem_rowSeed, mem_rowChildOps b tp (nodeChildren T) 0 op]
  simp only [Nat.zero_add]

/-- Every operation the handler emits is of the uniform kind: an add when
    disabling, a remove when enabling. -/
theorem handleSetNodeDisabled_uniform (t T : DV) (b : Bool) (tp : List Nat)
    (hT : navigate t tp = some T) (hnode : isNode T = true) :
    ∀ op ∈ handleSetNodeDisabled t b tp, ∃ p' a', op = opFor b p' a' := by
  intro op hop
  by_cases hrow : nodeName T = "Row"
  · rcases (mem_handleSetNodeDisabled_row t T b tp hT hnode hrow op).mp hop with
      ⟨j, c, _, _, _, _, rfl⟩ | ⟨j, c, _, _, q, d, _, _, _, rfl⟩
    · exact ⟨tp ++ [j], "Disabled", rowOp_eq_opFor b _⟩
    · exact ⟨(tp ++ [j]) ++ q, "AncestorDisabled", ancOp_eq_opFor b _⟩
  · rcases (mem_handleSetNodeDisabled_nonRow t T b tp hT hnode hrow op).mp hop with
      rfl | ⟨q, d, _, _, _, rfl⟩
    · exact ⟨tp, "Disabled", rowOp_eq_opFor b _⟩
    · exact ⟨tp ++ q, "AncestorDisabled", ancOp_eq_opFor b _⟩

/-- Applying the patch emitted for a valid Row target and handling the same
    message again yields an empty patch: each non-Row node child now has the
    requested `Disabled` state, and each reachable non-Row descendant the
    requested `AncestorDisabled` state, while the reachability itself is
    unchanged (the patch never touches `Disabled` below the row's
    children). -/
theorem row_second_run_empty (t T : DV) (b : Bool) (tp : List Nat)
    (hT : navigate t tp = some T) (hnode : isNode T = true)
    (hrow : nodeName T = "Row") :
    handleSetNodeDisabled (applyPatch t (handleSetNodeDisabled t b tp)) b tp = [] := by
  have hU := handleSetNodeDisabled_uniform t T b tp hT hnode
  have htr := truthyAt_applyPatch_uniform b (handleSetNodeDisabled t b tp)
  have hproj := applyPatch_proj (handleSetNodeDisabled t b tp)
  have hTs := (hproj t tp).2.2
  rw [hT] at hTs
  cases hT' : navigate (applyPatch t (handleSetNodeDisabled t b tp)) tp with
  | none =>
    rw [hT'] at hTs
    simp at hTs
  | some T' =>
    have hTn := (hproj t tp).1
    have hTi := (hproj t tp).2.1
    rw [hT, hT'] at hTn hTi
    simp only [Option.map_some', Option.some.injEq] at hTn hTi
    have hnode' : isNode T' = true := by rw [hTi]; exact hnode
    have hrow' : nodeName T' = "Row" := by rw [hTn]; exact hrow
    rw [List.eq_nil_iff_forall_not_mem]
    intro op hop
    rcases (mem_handleSetNodeDisabled_row _ T' b tp hT' hnode' hrow' op).mp hop with
      ⟨j, c', hj', hn', hrowc', hcond', rfl⟩ |
      ⟨j, c', hj', hn', q, d', hdesc', hrowd', hcond', rfl⟩
    · -- a Disabled operation for a non-Row node child of the row
      have hnavc' : navigate (applyPatch t (handleSetNodeDisabled t b tp))
          (tp ++ [j]) = some c' := by
        rw [navigate_append_some _ T' tp [j] hT', navigate_single]
        exact hj'
      have hc3 := (hproj t (tp ++ [j])).2.2
      rw [hnavc'] at hc3
      cases hnavc : navigate t (tp ++ [j]) with
      | none =>
        rw [hnavc] at hc3
        simp at hc3
      | some c =>
        have hc1 := (hproj t (tp ++ [j])).1
        have hc2 := (hproj t (tp ++ [j])).2.1
        rw [hnavc', hnavc] at hc1 hc2
        simp only [Option.map_some', Option.some.injEq] at hc1 hc2
        have hinc : isNode c = true := by rw [← hc2]; exact hn'
        have hjc : (nodeChildren T)[j]? = some c := by
          rw [← navigate_single, ← navigate_append_some t T tp [j] hT]
          exact hnavc
        have htD : truthyAt (applyPatch t (handleSetNodeDisabled t b tp))
            (tp ++ [j]) "Disabled" = !b := by
          rw [truthyAt_some _ c' (tp ++ [j]) _ hnavc']
          exact (rowCond_eq b c').mp hcond'
        rw [htr t (tp ++ [j]) "Disabled" hU] at htD
        by_cases hmem : opFor b (tp ++ [j]) "Disabled" ∈ handleSetNodeDisabled t b tp
        · rw [if_pos hmem] at htD
          have hNat : isNodeAt t (tp ++ [j]) = true := by
            unfold isNodeAt
            rw [hnavc]
            exact hinc
          rw [hNat] at htD
          cases b <;> simp at htD
        · rw [if_neg hmem] at htD
          rw [truthyAt_some t c (tp ++ [j]) _ hnavc] at htD
          have hcondc : rowCond b c = true := (rowCond_eq b c).mpr htD
          have hrowcc : nodeName c ≠ "Row" := fun h => hrowc' (hc1.trans h)
          have hmem2 : rowOp b (tp ++ [j]) ∈ handleSetNodeDisabled t b tp :=
            (mem_handleSetNodeDisabled_row t T b tp hT hnode hrow _).mpr
              (Or.inl ⟨j, c, hjc, hinc, hrowcc, hcondc, rfl⟩)
          rw [rowOp_eq_opFor] at hmem2
          exact hmem hmem2
    · -- an AncestorDisabled operation for a reachable descendant
      have hnavc' : navigate (applyPatch t (handleSetNodeDisabled t b tp))
          (tp ++ [j]) = some c' := by
        rw [navigate_append_some _ T' tp [j] hT', navigate_single]
        exact hj'
      have hc3 := (hproj t (tp ++ [j])).2.2
      rw [hnavc'] at hc3
      cases hnavc : navigate t (tp ++ [j]) with
      | none =>
        rw [hnavc] at hc3
        simp at hc3
      | some c =>
        have hc2 := (hproj t (tp ++ [j])).2.1
        rw [hnavc', hnavc] at hc2
        simp only [Option.map_some', Option.some.injEq] at hc2
        have hinc : isNode c = true := by rw [← hc2]; exact hn'
        have hjc : (nodeChildren T)[j]? = some c := by
          rw [← navigate_single, ← navigate_append_some t T tp [j] hT]
          exact hnavc
        have hnm2 : ∀ r, (navigate c' r).map nodeName = (navigate c r).map nodeName := by
          intro r
          rw [← navigate_append_some _ c' (tp ++ [j]) r hnavc',
            ← navigate_append_some t c (tp ++ [j]) r hnavc]
          exact (hproj t ((tp ++ [j]) ++ r)).1
        have hin2 : ∀ r, (navigate c' r).map isNode = (navigate c r).map isNode := by
          intro r
          rw [← navigate_append_some _ c' (tp ++ [j]) r hnavc',
            ← navigate_append_some t c (tp ++ [j]) r hnavc]
          exact (hproj t ((tp ++ [j]) ++ r)).2.1
        have hdis2 : ∀ r, r ≠ [] →
            truthyAt c' r "Disabled" = truthyAt c r "Disabled" := by
          intro r hr
          have hnotmem : opFor b ((tp ++ [j]) ++ r) "Disabled" ∉
              handleSetNodeDisabled t b tp := by
            intro hmem
            rcases (mem_handleSetNodeDisabled_row t T b tp hT hnode hrow _).mp hmem with
              ⟨j0, c0, _, _, _, _, heq⟩ | ⟨j0, c0, _, _, q0, d0, _, _, _, heq⟩
            · rw [rowOp_eq_opFor] at heq
              have h5 := (opFor_inj b _ _ _ _).mp heq
              have hlen := congrArg List.length h5.1
              have hrl : 0 < r.length := List.length_pos.mpr hr
              simp only [List.length_append, List.length_cons, List.length_nil] at hlen
              omega
            · rw [ancOp_eq_opFor] at heq
              have h5 := (opFor_inj b _ _ _ _).mp heq
              exact absurd h5.2 (by simp)
          rw [← truthyAt_navigate _ c' (tp ++ [j]) r _ hnavc',
            ← truthyAt_navigate t c (tp ++ [j]) r _ hnavc,
            htr t ((tp ++ [j]) ++ r) "Disabled" hU, if_neg hnotmem]
        obtain ⟨d, hdescd, hnavd, hnamed⟩ := desc_transfer hdesc' c hnm2 hin2 hdis2
        have hnavd' : navigate (applyPatch t (handleSetNodeDisabled t b tp))
            ((tp ++ [j]) ++ q) = some d' := by
          rw [navigate_append_some _ c' (tp ++ [j]) q hnavc']
          exact (desc_navigate hdesc').1
        have hnavdt : navigate t ((tp ++ [j]) ++ q) = some d := by
          rw [navigate_append_some t c (tp ++ [j]) q hnavc]
          exact hnavd
        have hrowdd : nodeName d ≠ "Row" := fun h => hrowd' (hnamed.symm.trans h)
        have htA : truthyAt (applyPatch t (handleSetNodeDisabled t b tp))
            ((tp ++ [j]) ++ q) "AncestorDisabled" = !b := by
          rw [truthyAt_some _ d' _ _ hnavd']
          exact (ancCond_eq b d').mp hcond'
        rw [htr t ((tp ++ [j]) ++ q) "AncestorDisabled" hU] at htA
        by_cases hmem : opFor b ((tp ++ [j]) ++ q) "AncestorDisabled" ∈
            handleSetNodeDisabled t b tp
        · rw [if_pos hmem] at htA
          have hNat : isNodeAt t ((tp ++ [j]) ++ q) = true := by
            unfold isNodeAt
            rw [hnavdt]
            exact (desc_navigate hdescd).2
          rw [hNat] at htA
          cases b <;> simp at htA
        · rw [if_neg hmem] at htA
          rw [truthyAt_some t d _ _ hnavdt] at htA
          have hcondd : ancCond b d = true := (ancCond_eq b d).mpr htA
          have hmem2 : ancOp b ((tp ++ [j]) ++ q) ∈ handleSetNodeDisabled t b tp :=
            (mem_handleSetNodeDisabled_row t T b tp hT hnode hrow _).mpr
              (Or.inr ⟨j, c, hjc, hinc, q, d, hdescd, hrowdd, hcondd, rfl⟩)
          rw [ancOp_eq_opFor] at hmem2
          exact hmem hmem2

/-- **C6 (amended).** Handling `Adapter::SetNodeDisabled(b, tp)` for a valid
    target node `T`: when the target is not a Row it unconditionally receives
    its own `Disabled` operation (add when disabling, remove when enabling —
    even when it already has the requested state), and the emitted patch
    consists of exactly that operation plus an `AncestorDisabled` operation
    for every non-Row descendant reachable without crossing a node whose
    `Disabled` attribute is truthy and not already carrying the requested
    `AncestorDisabled` state; when the target is a Row the patch consists of
    a `Disabled` operation for each non-Row node child not already in the
    requested state plus the same `AncestorDisabled` operations for
    descendants reachable through the children; an empty patch emits no
    contents-changed notification; and for a Row target handling the same
    message twice in succession notifies listeners at most once (for a
    non-Row target the patch is never empty, so two handlings notify
    twice). -/
theorem C6_set_node_disabled (t T : DV) (b : Bool) (tp : List Nat)
    (hT : navigate t tp = some T) (hnode : isNode T = true) :
    (nodeName T ≠ "Row" →
      handleSetNodeDisabled t b tp =
          rowOp b tp :: ancLoop b (nodeChildrenWithPaths tp T).reverse
        ∧ ∀ op, op ∈ handleSetNodeDisabled t b tp ↔
            (op = rowOp b tp ∨
              ∃ q d, Desc T q d ∧ nodeName d ≠ "Row" ∧ ancCond b d = true ∧
                op = ancOp b (tp ++ q)))
    ∧ (nodeName T = "Row" →
        ∀ op, op ∈ handleSetNodeDisabled t b tp ↔
          ((∃ j c, (nodeChildren T)[j]? = some c ∧ isNode c = true ∧
              nodeName c ≠ "Row" ∧ rowCond b c = true ∧ op = rowOp b (tp ++ [j]))
            ∨ ∃ j c, (nodeChildren T)[j]? = some c ∧ isNode c = true ∧
                ∃ q d, Desc c q d ∧ nodeName d ≠ "Row" ∧ ancCond b d = true ∧
                  op = ancOp b ((tp ++ [j]) ++ q)))
    ∧ (handleSetNodeDisabled t b tp = [] → notifyCount t b tp = 0)
    ∧ (nodeName T = "Row" →
        notifyCount t b tp +
          notifyCount (applyPatch t (handleSetNodeDisabled t b tp)) b tp ≤ 1) := by
  refine ⟨fun hrow => ⟨handleSetNodeDisabled_nonRow t T b tp hT hnode hrow,
      fun op => mem_handleSetNodeDisabled_nonRow t T b tp hT hnode hrow op⟩,
    fun hrow op => mem_handleSetNodeDisabled_row t T b tp hT hnode hrow op,
    fun h => by simp [notifyCount, h],
    fun hrow => ?_⟩
  have h2 := row_second_run_empty t T b tp hT hnode hrow
  have h3 : notifyCount (applyPatch t (handleSetNodeDisabled t b tp)) b tp = 0 := by
    simp [notifyCount, h2]
  rw [h3]
  have h4 : notifyCount t b tp ≤ 1 := by
    unfold notifyCount
    split <;> omega
  omega

/-- A Row whose first child is an enabled non-Row editor and whose second
    child is a nested Row holding a Label. -/
def wRowTree : DV :=
  Gen.DomVal.node "Row" []
    [Gen.DomVal.node "PropertyEditor" [] [],
     Gen.DomVal.node "Row" [] [Gen.DomVal.node "Label" [] []]]

theorem C6_set_node_disabled_witness :
    navigate wRowTree [] = some wRowTree ∧ isNode wRowTree = true ∧
      (nodeName wRowTree = "Row" →
        notifyCount wRowTree true [] +
          notifyCount (applyPatch wRowTree (handleSetNodeDisabled wRowTree true []))
            true [] ≤ 1) :=
  ⟨rfl, rfl, (C6_set_node_disabled wRowTree wRowTree true [] rfl rfl).2.2.2⟩

end Disable

end O3DE
